import Mathlib

/-
Shallow embedding of `src/switchyard/lib/topo/topobuild.py` (classes
`Interface`, `Node`, `Topology` and the serialization codec), written so
that every definition mirrors the corresponding Python code line by line.

Modelling conventions:
* Python dicts are insertion-ordered association lists (`dictGet`/`dictSet`
  reproduce lookup and in-place update semantics).
* MAC / IPv4 addresses are canonical colon-hex strings resp. 32-bit `Nat`
  values; `EthAddr`/`IPAddr` (switchyard.lib.address, not under src/) act as
  the identity on the canonical string forms produced by this module.
* Exceptions become an explicit error type; every mutating method returns
  the resulting topology next to `Except`, so a raise that happens after a
  partial mutation is observable.
* `unhumanize_capacity`/`unhumanize_delay`/`humanize_*`
  (switchyard.lib.topo.util, not under src/) are modelled from the spec as
  total conversions between human strings ("100mbps", "10ms") and canonical
  bits-per-second integers / seconds rationals.
-/

namespace Topo

/-- Character for a single digit below 16, as produced by Python's decimal
and lowercase-hex formatting. -/
def digChar (d : Nat) : Char :=
  if d < 10 then Char.ofNat (48 + d) else Char.ofNat (87 + d)

/-- Numeric value of a decimal/lowercase-hex digit character. -/
def digVal (c : Char) : Nat :=
  if c.toNat ≥ 97 then c.toNat - 87 else c.toNat - 48

/-- Little-endian base-b digits, with explicit fuel (structural recursion,
so that the kernel can evaluate it; fuel n always suffices for value n). -/
def digitsAux (b : Nat) : Nat → Nat → List Nat
  | 0, _ => []
  | _ + 1, 0 => []
  | fuel + 1, n + 1 => ((n + 1) % b) :: digitsAux b fuel ((n + 1) / b)

/-- Big-endian digit characters of n in base b (empty for n = 0). -/
def natDigits (b n : Nat) : List Char :=
  (digitsAux b n n).reverse.map digChar

/-- Python's str(n) for a natural number (decimal, no sign, no padding). -/
def natToStr (n : Nat) : String :=
  if n = 0 then "0" else ⟨natDigits 10 n⟩

/-- Value of a big-endian digit-character list in base b. -/
def unDigits (b : Nat) (cs : List Char) : Nat :=
  cs.foldl (fun a c => a * b + digVal c) 0

/-- Python format '{:012x}': lowercase hex digits of n, zero-padded on the
left to at least 12 characters. -/
def hexPad12 (n : Nat) : List Char :=
  let s := if n = 0 then ['0'] else natDigits 16 n
  List.replicate (12 - s.length) '0' ++ s

/-- Slices of two characters, as in [s[j:j+2] for j in range(0,len(s),2)]. -/
def chunk2 : List Char → List (List Char)
  | [] => []
  | [c] => [[c]]
  | c1 :: c2 :: rest => [c1, c2] :: chunk2 rest

/-- Join character chunks with a ':' separator, as Python str.join does. -/
def joinColon : List (List Char) → List Char
  | [] => []
  | [c] => c
  | c :: c2 :: rest => c ++ ':' :: joinColon (c2 :: rest)

/-- The MAC-address string for counter value n, exactly as built in
Topology.addLink: format '{:012x}' then colon-joined two-character groups. -/
def macFormat (n : Nat) : String :=
  ⟨joinColon (chunk2 (hexPad12 n))⟩

/-- Left inverse used to prove macFormat injective: strip the colons and
read the hex value back. -/
def macVal (s : String) : Nat :=
  unDigits 16 (s.data.filter (fun c => c != ':'))

/-- Dotted-quad rendering of a 32-bit IPv4 address value. -/
def ipToString (n : Nat) : String :=
  natToStr (n / 16777216 % 256) ++ "." ++ natToStr (n / 65536 % 256) ++ "." ++
    natToStr (n / 256 % 256) ++ "." ++ natToStr (n % 256)

/-- Split a character list at every occurrence of the separator (the
behaviour of Python str.split(sep) for a one-character sep; empty pieces
are kept). -/
def splitChar (sep : Char) : List Char → List (List Char)
  | [] => [[]]
  | c :: rest =>
    match splitChar sep rest with
    | [] => if c = sep then [[], []] else [[c]]
    | h :: t => if c = sep then [] :: h :: t else (c :: h) :: t

/-- Python s.split(sep) for a one-character separator, on strings. -/
def splitOnStr (s : String) (sep : Char) : List String :=
  (splitChar sep s.data).map (fun l => ⟨l⟩)

/-- Parse of a decimal numeral: all-digit non-empty strings only. -/
def decNum? (s : String) : Option Nat :=
  if s.data ≠ [] ∧ s.data.all (fun c => c.isDigit) then some (unDigits 10 s.data) else none

/-- Parse of one dotted-quad octet (0..255). -/
def decOctet? (s : String) : Option Nat :=
  match decNum? s with
  | some n => if n ≤ 255 then some n else none
  | none => none

/-- Parse of a dotted-quad IPv4 address string to its 32-bit value. -/
def ipParse? (s : String) : Option Nat :=
  match splitOnStr s '.' with
  | [a, b, c, d] =>
    match decOctet? a, decOctet? b, decOctet? c, decOctet? d with
    | some pa, some pb, some pc, some pd =>
      some (((pa * 256 + pb) * 256 + pc) * 256 + pd)
    | _, _, _, _ => none
  | _ => none

/-- Total variant of ipParse? for contexts where the Python code feeds the
parser strings this module itself produced (garbage maps to 0, where the
library would raise). -/
def ipParseD (s : String) : Nat :=
  (ipParse? s).getD 0

/-- Split a string into its leading decimal digits and the remaining unit
suffix. -/
def splitNumUnit (s : String) : List Char × String :=
  (s.data.takeWhile (fun c => c.isDigit), ⟨s.data.dropWhile (fun c => c.isDigit)⟩)

/-- Modelled from the spec: switchyard.lib.topo.util's unhumanize_capacity
(the file is not under src/): parse a human capacity string such as
"100mbps" into a canonical bits-per-second integer. -/
def unhumanize_capacity (s : String) : Nat :=
  let (ds, unit) := splitNumUnit s
  let n := unDigits 10 ds
  if unit = "kbps" then n * 1000
  else if unit = "mbps" then n * 1000000
  else if unit = "gbps" then n * 1000000000
  else n

/-- Modelled from the spec: switchyard.lib.topo.util's unhumanize_delay (the
file is not under src/): parse a human delay string such as "10ms" into
canonical seconds. -/
def unhumanize_delay (s : String) : ℚ :=
  let (ds, unit) := splitNumUnit s
  let n := unDigits 10 ds
  if unit = "ms" then (n : ℚ) / 1000
  else if unit = "us" then (n : ℚ) / 1000000
  else if unit = "ns" then (n : ℚ) / 1000000000
  else (n : ℚ)

/-- Modelled from the spec: switchyard.lib.topo.util's humanize_capacity
(not under src/), used only to build the display label of a link. -/
def humanize_capacity (n : Nat) : String :=
  natToStr n ++ " bps"

/-- Modelled from the spec: switchyard.lib.topo.util's humanize_delay (not
under src/), used only to build the display label of a link. -/
def humanize_delay (q : ℚ) : String :=
  toString q ++ " s"

/-- Lookup in an insertion-ordered dict (first and only binding of a key). -/
def dictGet {α : Type} (d : List (String × α)) (k : String) : Option α :=
  match d with
  | [] => none
  | (k', v) :: rest => if k' = k then some v else dictGet rest k

/-- Update/insert in an insertion-ordered dict: an existing key keeps its
position, a new key is appended, as for Python dict assignment. -/
def dictSet {α : Type} (d : List (String × α)) (k : String) (v : α) : List (String × α) :=
  match d with
  | [] => [(k, v)]
  | (k', v') :: rest => if k' = k then (k, v) :: rest else (k', v') :: dictSet rest k v

/-- class Interface: name, 48-bit MAC, optional IPv4 address and mask. The
setters' defaults (None inputs) are applied at construction via
mkInterface. -/
structure Interface where
  name : String
  ethaddr : String
  ipaddr : Nat
  netmask : Nat
deriving DecidableEq

/-- Interface construction: a None ethaddr defaults to the zero MAC, a None
ipaddr to 0.0.0.0, a None netmask to 255.255.255.255 (= 4294967295). -/
def mkInterface (name : String) (eth : Option String) (ip : Option Nat) (mask : Option Nat) : Interface :=
  { name := name
    ethaddr := eth.getD "00:00:00:00:00:00"
    ipaddr := ip.getD 0
    netmask := mask.getD 4294967295 }

/-- str(Interface): name and MAC, plus ip/mask only when the address is not
0.0.0.0. -/
def interfaceStr (i : Interface) : String :=
  let s := i.name ++ " mac:" ++ i.ethaddr
  if ipToString i.ipaddr ≠ "0.0.0.0" then
    s ++ " ip:" ++ ipToString i.ipaddr ++ "/" ++ ipToString i.netmask
  else s

/-- class Node's own state: the interface-name counter and the interface
dict. -/
structure NodeObj where
  ifnum : Nat
  interfaces : List (String × Interface)
deriving DecidableEq

/-- Node.addInterface: allocate the name eth<ifnum>, bump the counter, build
the Interface and store it under that name. -/
def nodeAddInterface (no : NodeObj) (eth : Option String) (ip mask : Option Nat) : String × NodeObj :=
  let ifname := "eth" ++ natToStr no.ifnum
  (ifname,
    { ifnum := no.ifnum + 1
      interfaces := dictSet no.interfaces ifname (mkInterface ifname eth ip mask) })

/-- Values that can sit in the keyword dict passed to Node.__init__. -/
inductive KwVal where
  | vs (s : String)
  | vifs (m : List (String × String))
  | vobj (nodetype : String) (interfaces : List (String × String))
deriving DecidableEq

/-- Parse of one serialized interface string inside Node.__init__:
components = ifstr.split(); mac = components[1][4:]; the optional third
component "ip:<addr>/<mask>" yields the address pair, else None/None. -/
def parseIfStr (ifname s : String) : Interface :=
  let comps := splitOnStr s ' '
  let mac : String := ⟨(((comps[1]?).getD "").data).drop 4⟩
  if comps.length > 2 then
    let ipmask := splitOnStr (((splitOnStr ((comps[2]?).getD "") ':')[1]?).getD "") '/'
    { name := ifname
      ethaddr := mac
      ipaddr := ipParseD (((ipmask[0]?).getD ""))
      netmask := ipParseD (((ipmask[1]?).getD "")) }
  else
    { name := ifname, ethaddr := mac, ipaddr := 0, netmask := 4294967295 }

/-- Node.__init__(**kwargs): ifnum starts at 0; when (and only when) the
key 'interfaces' is present in kwargs, its serialized interface strings are
parsed back into the interface dict. The counter ifnum is NOT advanced past
those pre-existing interfaces. -/
def nodeInitFromKwargs (kwargs : List (String × KwVal)) : NodeObj :=
  match dictGet kwargs "interfaces" with
  | some (KwVal.vifs m) =>
    { ifnum := 0, interfaces := m.map (fun p => (p.1, parseIfStr p.1 p.2)) }
  | _ => { ifnum := 0, interfaces := [] }

/-- One node of the topology graph: the graph key plus the attribute dict
entries 'label', 'type' and 'nodeobj' (cls records the runtime class of the
nodeobj, i.e. its nodetype property). -/
structure NodeEntry where
  name : String
  label : String
  type : String
  cls : String
  nodeobj : NodeObj
deriving DecidableEq

/-- One undirected edge with its attribute dict: display label, canonical
capacity and delay, and the two nodename-to-interface-name entries. -/
structure Edge where
  u : String
  v : String
  label : String
  capacity : Nat
  delay : ℚ
  ifmap : List (String × String)
deriving DecidableEq

/-- class Topology: graph name, node list, edge list, per-type name
counters, the auto-MAC flag and the MAC counter (starts at 1). -/
structure Topology where
  name : String
  nodes : List NodeEntry
  edges : List Edge
  hnum : Nat
  snum : Nat
  rnum : Nat
  auto_macs : Bool
  ifnum : Nat
deriving DecidableEq

/-- Topology(name, auto_macs): fresh empty topology (counters 0/0/0, MAC
counter 1). -/
def mkTopology (name : String) (auto : Bool) : Topology :=
  { name := name, nodes := [], edges := [], hnum := 0, snum := 0, rnum := 0,
    auto_macs := auto, ifnum := 1 }

/-- Errors: each constructor names one concrete raise site of the Python
code (which raises plain Exception / builtin errors; the names follow the
spec's taxonomy). addressSpaceExhausted is the StopIteration that next()
raises on the exhausted host-address generator. -/
inductive TopoError where
  | duplicateNode (name : String)
  | unknownNode (name : String)
  | keyError
  | valueError
  | addressSpaceExhausted
  | malformedNode (name : String)
  | nameError (s : String)
  | nodeNameCollision
deriving DecidableEq

/-- Node names of the topology in insertion order. -/
def nodeNames (t : Topology) : List String :=
  t.nodes.map (fun ne => ne.name)

/-- Topology.__addNode: duplicate names are rejected before any mutation;
otherwise the node is appended with label = name, a fresh class instance
and the type tag. -/
def addNode (t : Topology) (name cls : String) : Except TopoError Unit × Topology :=
  if name ∈ nodeNames t then (.error (.duplicateNode name), t)
  else
    (.ok (),
      { t with nodes := t.nodes ++
          [{ name := name, label := name, type := cls, cls := cls,
             nodeobj := { ifnum := 0, interfaces := [] } }] })

/-- The while-loop of addHost/addSwitch/addRouter: name = tag + str(cnt);
cnt += 1; exit when the name is unused. The fuel argument only bounds the
recursion; with fuel ≥ nodes.length + 1 the loop always exits through the
'name not in graph' branch (see genName_free). -/
def genName (t : Topology) (tag : String) : Nat → Nat → String × Nat
  | cnt, 0 => (tag ++ natToStr cnt, cnt + 1)
  | cnt, fuel + 1 =>
    let name := tag ++ natToStr cnt
    if name ∈ nodeNames t then genName t tag (cnt + 1) fuel else (name, cnt + 1)

/-- Topology.addHost: auto-generate h<N> when no name is given, then
__addNode with class Host; returns the name. -/
def addHost (t : Topology) (name : Option String) : Except TopoError String × Topology :=
  match name with
  | some n =>
    match addNode t n "Host" with
    | (.ok _, t') => (.ok n, t')
    | (.error e, t') => (.error e, t')
  | none =>
    let (n, h') := genName t "h" t.hnum (t.nodes.length + 1)
    let t1 := { t with hnum := h' }
    match addNode t1 n "Host" with
    | (.ok _, t') => (.ok n, t')
    | (.error e, t') => (.error e, t')

/-- Topology.addSwitch: as addHost with tag s and class Switch. -/
def addSwitch (t : Topology) (name : Option String) : Except TopoError String × Topology :=
  match name with
  | some n =>
    match addNode t n "Switch" with
    | (.ok _, t') => (.ok n, t')
    | (.error e, t') => (.error e, t')
  | none =>
    let (n, s') := genName t "s" t.snum (t.nodes.length + 1)
    let t1 := { t with snum := s' }
    match addNode t1 n "Switch" with
    | (.ok _, t') => (.ok n, t')
    | (.error e, t') => (.error e, t')

/-- Topology.addRouter: as addHost with tag r and class Router. -/
def addRouter (t : Topology) (name : Option String) : Except TopoError String × Topology :=
  match name with
  | some n =>
    match addNode t n "Router" with
    | (.ok _, t') => (.ok n, t')
    | (.error e, t') => (.error e, t')
  | none =>
    let (n, r') := genName t "r" t.rnum (t.nodes.length + 1)
    let t1 := { t with rnum := r' }
    match addNode t1 n "Router" with
    | (.ok _, t') => (.ok n, t')
    | (.error e, t') => (.error e, t')

/-- The graph's node entry for a name (graph keys are unique, so the first
match is the only one). -/
def findNode (t : Topology) (name : String) : Option NodeEntry :=
  t.nodes.find? (fun ne => ne.name == name)

/-- In-place mutation of the nodeobj stored under one graph key. -/
def overNode (t : Topology) (name : String) (f : NodeObj → NodeObj) : Topology :=
  { t with nodes := t.nodes.map (fun ne =>
      if ne.name = name then { ne with nodeobj := f ne.nodeobj } else ne) }

/-- Replace the nodeobj stored at a node name (in-place object mutation of
nxgraph.node[name]['nodeobj']). -/
def setNodeObj (t : Topology) (name : String) (no : NodeObj) : Topology :=
  overNode t name (fun _ => no)

/-- nxgraph.node[node]['nodeobj'].addInterface(ethaddr=mac): add an
interface to the named node (node existence was checked by the caller,
as in addLink). -/
def topoAddInterface (t : Topology) (node : String) (eth : Option String) : String × Topology :=
  match findNode t node with
  | none => ("", t)
  | some ne =>
    let (ifname, no') := nodeAddInterface ne.nodeobj eth none none
    (ifname, setNodeObj t node no')

/-- Whether the two unordered endpoints of e are {n1, n2}. -/
def edgeMatches (e : Edge) (n1 n2 : String) : Bool :=
  (e.u == n1 && e.v == n2) || (e.u == n2 && e.v == n1)

/-- The edge between two nodes, if any (nx simple graph: at most one). -/
def edgeBetween (t : Topology) (n1 n2 : String) : Option Edge :=
  t.edges.find? (fun e => edgeMatches e n1 n2)

/-- nx.Graph.add_edge(u, v) with no attributes: appends a fresh edge with
an empty attribute dict when the pair has none, otherwise leaves the
existing edge (and its attributes) in place. -/
def ensureEdge (t : Topology) (n1 n2 : String) : Topology :=
  match edgeBetween t n1 n2 with
  | some _ => t
  | none => { t with edges := t.edges ++
      [{ u := n1, v := n2, label := "", capacity := 0, delay := 0, ifmap := [] }] }

/-- The attribute writes of addLink on the (now existing) edge: label,
capacity, delay, then the node1- and node2-keyed interface entries, in
source order. -/
def setEdgeData (t : Topology) (n1 n2 lab : String) (cap : Nat) (dly : ℚ) (if1 if2 : String) : Topology :=
  { t with edges := t.edges.map (fun e =>
      if edgeMatches e n1 n2 then
        { e with label := lab, capacity := cap, delay := dly,
                 ifmap := dictSet (dictSet e.ifmap n1 if1) n2 if2 }
      else e) }

/-- The straight-line tail of Topology.addLink after the node checks and
MAC allocation: create one interface per endpoint, add the edge, then
store label/capacity/delay and the endpoint-interface entries, in source
order. -/
def addLinkCore (t : Topology) (node1 node2 : String) (mac1 mac2 : Option String)
    (capacity delay : String) : Topology :=
  let (if1, t2) := topoAddInterface t node1 mac1
  let (if2, t3) := topoAddInterface t2 node2 mac2
  let t4 := ensureEdge t3 node1 node2
  let capbits := unhumanize_capacity capacity
  let delaysec := unhumanize_delay delay
  let lab := humanize_capacity capbits ++ " " ++ humanize_delay delaysec
  setEdgeData t4 node1 node2 lab capbits delaysec if1 if2

/-- Topology.addLink: check both nodes exist (raising on the first missing
one), allocate two sequential auto MACs when enabled (advancing the MAC
counter twice), then run the straight-line tail. -/
def addLink (t : Topology) (node1 node2 capacity delay : String) : Except TopoError Unit × Topology :=
  if node1 ∉ nodeNames t then (.error (.unknownNode node1), t)
  else if node2 ∉ nodeNames t then (.error (.unknownNode node2), t)
  else if t.auto_macs then
    (.ok (), addLinkCore { t with ifnum := t.ifnum + 2 } node1 node2
      (some (macFormat t.ifnum)) (some (macFormat (t.ifnum + 1))) capacity delay)
  else
    (.ok (), addLinkCore t node1 node2 none none capacity delay)

/-- Index of a node name in insertion order (nodes.length when absent). -/
def nodeIdx (t : Topology) (n : String) : Nat :=
  t.nodes.findIdx (fun ne => ne.name == n)

/-- Topology.links, i.e. nx.Graph.edges(): each edge reported once, as the
pair (endpoint earlier in node insertion order, other endpoint); the
enumeration visits nodes in insertion order and, per node, that node's
edges in edge insertion order. -/
def links (t : Topology) : List (String × String) :=
  t.nodes.flatMap (fun ne =>
    t.edges.filterMap (fun e =>
      if e.u = ne.name ∧ nodeIdx t e.u ≤ nodeIdx t e.v then some (e.u, e.v)
      else if e.v = ne.name ∧ e.u ≠ e.v ∧ nodeIdx t e.v < nodeIdx t e.u then some (e.v, e.u)
      else none))

/-- Lexicographic strict comparison of character lists by code point
(Python string <). -/
def strLt : List Char → List Char → Bool
  | [], [] => false
  | [], _ :: _ => true
  | _ :: _, [] => false
  | a :: as, b :: bs =>
    if a.toNat < b.toNat then true
    else if a.toNat = b.toNat then strLt as bs
    else false

/-- Python string < on strings. -/
def pyStrLt (a b : String) : Bool :=
  strLt a.data b.data

/-- Python tuple comparison on string pairs, as used by sorted():
(a1, a2) ≤ (b1, b2) iff a1 < b1, or a1 = b1 and a2 ≤ b2. -/
def pairLE (a b : String × String) : Bool :=
  if a.1 = b.1 then (a.2 == b.2 || pyStrLt a.2 b.2) else pyStrLt a.1 b.1

/-- Insertion into a pairLE-ascending list, before the first element not
below x. -/
def insertLE (x : String × String) : List (String × String) → List (String × String)
  | [] => [x]
  | y :: rest => if pairLE x y then x :: y :: rest else y :: insertLE x rest

/-- Stable ascending insertion sort by pairLE; extensionally the sorted()
builtin on string pairs (a stable ascending sort is unique as a
function). -/
def sortPairs : List (String × String) → List (String × String)
  | [] => []
  | x :: rest => insertLE x (sortPairs rest)

/-- sorted(self.links): the links in ascending lexicographic pair order. -/
def sortedLinks (t : Topology) : List (String × String) :=
  sortPairs (links t)

/-- Names of nodes whose 'type' attribute equals ty (the hosts/switches/
routers properties). -/
def typeNames (t : Topology) (ty : String) : List String :=
  t.nodes.filterMap (fun ne => if ne.type = ty then some ne.name else none)

/-- nodes_to_number = self.hosts + self.routers. -/
def nodesToNumber (t : Topology) : List String :=
  typeNames t "Host" ++ typeNames t "Router"

/-- An IPv4 subnet: network address (host bits cleared) and prefix length. -/
structure IPv4Net where
  base : Nat
  plen : Nat
deriving DecidableEq

/-- The subnet netmask as a 32-bit value. -/
def maskOfPlen (plen : Nat) : Nat :=
  2 ^ 32 - 2 ^ (32 - plen)

/-- ipaddress.IPv4Network(s, strict=False): dotted-quad address, optional
/<len> suffix (defaulting to /32), host bits cleared. -/
def parseNet? (s : String) : Option IPv4Net :=
  match splitOnStr s '/' with
  | [a] =>
    match ipParse? a with
    | some base => some { base := base, plen := 32 }
    | none => none
  | [a, p] =>
    match ipParse? a, decNum? p with
    | some base, some plen =>
      if plen ≤ 32 then some { base := base - base % 2 ^ (32 - plen), plen := plen }
      else none
    | _, _ => none
  | _ => none

/-- subnet.hosts() (Python 3.8+ semantics): all addresses except network
and broadcast for prefixes up to /30, both addresses of a /31, the single
address of a /32 — in increasing order. -/
def subnetHosts (net : IPv4Net) : List Nat :=
  if net.plen ≤ 30 then (List.range (2 ^ (32 - net.plen) - 2)).map (fun i => net.base + 1 + i)
  else if net.plen = 31 then [net.base, net.base + 1]
  else [net.base]

/-- The interface mutation of the assignment loop applied at one key of a
node's interface dict. -/
def updIface (ifname : String) (ip mask : Nat) (k : String) (i : Interface) : Interface :=
  if k = ifname then { i with ipaddr := ip, netmask := mask } else i

/-- Set ip address and netmask of one interface of one node (the in-place
mutation intf.ipaddr = ...; intf.netmask = ...). -/
def setIfIpMask (t : Topology) (node ifname : String) (ip mask : Nat) : Topology :=
  overNode t node (fun no =>
    { no with interfaces := (no.interfaces.map (fun p => (p.1, updIface ifname ip mask p.1 p.2))) })

/-- The interface object stored at a node and interface name. -/
def getIf (t : Topology) (node ifname : String) : Option Interface :=
  match findNode t node with
  | none => none
  | some ne => dictGet ne.nodeobj.interfaces ifname

/-- The traversal order of assignIPAddresses: links in sorted order, per
link the endpoints [u, v] in tuple order, keeping those in
nodes_to_number, each paired with the edge's interface-name entry for that
endpoint (None marks the KeyError case of linkdata[node]). -/
def assignTargets (t : Topology) : List (String × Option String) :=
  let ntn := nodesToNumber t
  (sortedLinks t).flatMap (fun p =>
    match edgeBetween t p.1 p.2 with
    | none => []
    | some e =>
      ([p.1, p.2].filter (fun n => ntn.contains n)).map (fun n => (n, dictGet e.ifmap n)))

/-- The assignment loop of assignIPAddresses: for each target interface in
traversal order, look the interface up (KeyError when missing), draw the
next generator address (StopIteration = addressSpaceExhausted when the
subnet is used up) and store address and netmask. Assignments made before
a failure persist in the returned topology. -/
def assignGo (hostsL : List Nat) (mask : Nat) :
    List (String × Option String) → Nat → Topology → Except TopoError Unit × Topology
  | [], _, t => (.ok (), t)
  | (_, none) :: _, _, t => (.error .keyError, t)
  | (n, some ifn) :: rest, idx, t =>
    match getIf t n ifn with
    | none => (.error .keyError, t)
    | some _ =>
      match hostsL[idx]? with
      | none => (.error .addressSpaceExhausted, t)
      | some ip => assignGo hostsL mask rest (idx + 1) (setIfIpMask t n ifn ip mask)

/-- The subnet chosen by assignIPAddresses: 10.0.0.0/8 when the prefix
argument is absent or falsy (empty), else the parsed prefix. -/
def netOfPfx (pfx : Option String) : Option IPv4Net :=
  match pfx with
  | none => parseNet? "10.0.0.0/8"
  | some s => if s = "" then parseNet? "10.0.0.0/8" else parseNet? s

/-- Topology.assignIPAddresses: default subnet 10.0.0.0/8 when the prefix
is absent or empty, else the parsed prefix (ValueError on a malformed
one); then the assignment loop over the sorted-links traversal. -/
def assignIPAddresses (t : Topology) (pfx : Option String) : Except TopoError Unit × Topology :=
  match netOfPfx pfx with
  | none => (.error .valueError, t)
  | some net => assignGo (subnetHosts net) (maskOfPlen net.plen) (assignTargets t) 0 t

/-- Topology.getLinkInterfaces: looks the link's attribute dict up and
returns linkdata[node1], linkdata[node1] — the node1 entry twice (none
components model the KeyError cases, an outer none the missing edge). -/
def getLinkInterfaces (t : Topology) (node1 node2 : String) : Option (Option String × Option String) :=
  match edgeBetween t node1 node2 with
  | none => none
  | some e => some (dictGet e.ifmap node1, dictGet e.ifmap node1)

/-- Topology.union with rename=False: nx.union demands disjoint node sets
(NetworkXError otherwise) and builds a fresh graph holding both node and
edge lists; the new Topology wrapper starts with fresh counters and the
concatenated name. Neither input is touched on this path. -/
def unionNoRename (t1 t2 : Topology) : Except TopoError Topology :=
  if (nodeNames t1).all (fun n => !(nodeNames t2).contains n) then
    .ok { name := t1.name ++ "_" ++ t2.name,
          nodes := t1.nodes ++ t2.nodes,
          edges := t1.edges ++ t2.edges,
          hnum := 0, snum := 0, rnum := 0, auto_macs := true, ifnum := 1 }
  else .error .nodeNameCollision

/-- Wire form of one serialized node: id plus the attribute dict entries
'label', 'type' and 'nodeobj' (the Encoder writes the nodeobj via asDict;
a raw wire may also lack it, hence the Option). -/
structure WireNodeObj where
  nodetype : String
  interfaces : List (String × String)
deriving DecidableEq

structure WireNode where
  id : String
  label : String
  type : String
  nodeobj : Option WireNodeObj
deriving DecidableEq

/-- Wire form of one serialized link: source/target plus the remaining edge
attributes (the nodename-keyed interface entries kept as a dict). -/
structure WireLink where
  source : String
  target : String
  label : String
  capacity : Nat
  delay : ℚ
  ifEntries : List (String × String)
deriving DecidableEq

/-- Wire form of the whole json_graph node-link document. The JSON text
layer (json.dumps/json.loads) is an injective encoding of exactly this
data and decodes it unchanged, so it is elided. -/
structure WireTopo where
  name : String
  nodes : List WireNode
  links : List WireLink
deriving DecidableEq

/-- Node.asDict as embedded by the Encoder: the runtime class name and the
str() of each interface, keyed by interface name. -/
def nodeAsDict (ne : NodeEntry) : WireNodeObj :=
  { nodetype := ne.cls,
    interfaces := ne.nodeobj.interfaces.map (fun p => (p.1, interfaceStr p.2)) }

/-- Topology.serialize: json_graph.node_link_data of the graph — the node
list in insertion order with their attribute dicts, the edge list in
edges() order with source/target and the remaining attributes. -/
def serialize (t : Topology) : WireTopo :=
  { name := t.name,
    nodes := t.nodes.map (fun ne =>
      { id := ne.name, label := ne.label, type := ne.type, nodeobj := some (nodeAsDict ne) }),
    links := (links t).filterMap (fun p =>
      (edgeBetween t p.1 p.2).map (fun e =>
        { source := p.1, target := p.2, label := e.label, capacity := e.capacity,
          delay := e.delay, ifEntries := e.ifmap })) }

/-- The per-node reconstruction loop of Topology.unserialize: a node
without 'nodeobj' information raises; eval(nodetype) resolves the class
(NameError on a tag that is not one of the module's classes used here);
then ndict['nodeobj'] = cls(**dict(ndict)) where the keys of ndict are
exactly 'label', 'nodeobj' and 'type'. -/
def unserializeNode (wn : WireNode) : Except TopoError NodeEntry :=
  match wn.nodeobj with
  | none => .error (.malformedNode wn.id)
  | some nobj =>
    if nobj.nodetype = "Host" ∨ nobj.nodetype = "Switch" ∨ nobj.nodetype = "Router" then
      let no := nodeInitFromKwargs
        [("label", KwVal.vs wn.label),
         ("nodeobj", KwVal.vobj nobj.nodetype nobj.interfaces),
         ("type", KwVal.vs wn.type)]
      .ok { name := wn.id, label := wn.label, type := wn.type, cls := nobj.nodetype, nodeobj := no }
    else .error (.nameError nobj.nodetype)

/-- The node loop of unserialize over the whole wire node list. -/
def unserializeNodes : List WireNode → Except TopoError (List NodeEntry)
  | [] => .ok []
  | wn :: rest =>
    match unserializeNode wn with
    | .error e => .error e
    | .ok ne =>
      match unserializeNodes rest with
      | .error e => .error e
      | .ok nes => .ok (ne :: nes)

/-- Topology.unserialize: json_graph.node_link_graph rebuilds the graph
(nodes then edges in wire order), the node loop replaces each serialized
nodeobj dict by a reconstructed class instance, and the result is wrapped
in Topology(nxgraph=G) with fresh counters. -/
def unserialize (w : WireTopo) : Except TopoError Topology :=
  match unserializeNodes w.nodes with
  | .error e => .error e
  | .ok nes =>
    .ok { name := w.name,
          nodes := nes,
          edges := w.links.map (fun wl =>
            { u := wl.source, v := wl.target, label := wl.label,
              capacity := wl.capacity, delay := wl.delay, ifmap := wl.ifEntries }),
          hnum := 0, snum := 0, rnum := 0, auto_macs := true, ifnum := 1 }

/-- Structural well-formedness maintained by the construction API and
assumed by the claims that quantify over API-built topologies: node names
are distinct, and every edge joins existing nodes and carries, for each of
its two endpoints, an interface-name entry denoting an interface present
on that endpoint. -/
def WFT (t : Topology) : Prop :=
  (nodeNames t).Nodup ∧
  ∀ e ∈ t.edges,
    e.u ∈ nodeNames t ∧ e.v ∈ nodeNames t ∧
    ((dictGet e.ifmap e.u).bind (fun i => getIf t e.u i)).isSome = true ∧
    ((dictGet e.ifmap e.v).bind (fun i => getIf t e.v i)).isSome = true

instance (t : Topology) : Decidable (WFT t) := by
  unfold WFT; infer_instance

/-- Every target of the traversal denotes an interface actually present in
t (the property that rules the KeyError branches of the assignment loop
out; API-built topologies have it, see WFT). -/
def resolvable (t : Topology) (tgts : List (String × Option String)) : Prop :=
  ∀ p ∈ tgts, ∃ ifn, p.2 = some ifn ∧ (getIf t p.1 ifn).isSome = true

/-- Equality on results of the embedded operations is decidable. -/
instance exceptDecEq {ε α : Type} [DecidableEq ε] [DecidableEq α] : DecidableEq (Except ε α)
  | .ok a, .ok b =>
    match decEq a b with
    | isTrue h => isTrue (by rw [h])
    | isFalse h => isFalse (by intro hc; injection hc; contradiction)
  | .ok _, .error _ => isFalse (by intro hc; injection hc)
  | .error _, .ok _ => isFalse (by intro hc; injection hc)
  | .error e, .error f =>
    match decEq e f with
    | isTrue h => isTrue (by rw [h])
    | isFalse h => isFalse (by intro hc; injection hc; contradiction)

/-- The MAC strings stored on a node object's interfaces, in dict order. -/
def macsOfNO (no : NodeObj) : List String :=
  no.interfaces.map (fun p => p.2.ethaddr)

/-- The MAC strings stored on one graph node. -/
def macsOf (ne : NodeEntry) : List String :=
  macsOfNO ne.nodeobj

/-- All MAC strings stored anywhere in the topology, in node/dict order. -/
def allIfMacs (t : Topology) : List String :=
  t.nodes.flatMap macsOf

/-- Per-node invariant of API-built node objects: interface names are
distinct and each has the auto-generated form eth<k> for some k below the
node's counter. -/
def NodeWF (no : NodeObj) : Prop :=
  (no.interfaces.map (fun p => p.1)).Nodup ∧
  ∀ p ∈ no.interfaces, ∃ k ∈ List.range no.ifnum, p.1 = "eth" ++ natToStr k

instance (no : NodeObj) : Decidable (NodeWF no) := by
  unfold NodeWF; infer_instance

/-- Topology-level MAC invariant of API-built topologies with auto MACs:
node names are distinct, all stored MACs are distinct, each stored MAC was
formatted from a counter value below the current one, and every node
satisfies NodeWF. -/
def MacInv (t : Topology) : Prop :=
  (nodeNames t).Nodup ∧
  (allIfMacs t).Nodup ∧
  (∀ s ∈ allIfMacs t, ∃ m ∈ List.range t.ifnum, s = macFormat m) ∧
  ∀ ne ∈ t.nodes, NodeWF ne.nodeobj

instance (t : Topology) : Decidable (MacInv t) := by
  unfold MacInv; infer_instance

/-- One addLink request. -/
structure LinkReq where
  n1 : String
  n2 : String
  cap : String
  dly : String
deriving DecidableEq

/-- Final topology after a sequence of addLink calls. -/
def runLinks : Topology → List LinkReq → Topology
  | t, [] => t
  | t, r :: rs => runLinks (addLink t r.n1 r.n2 r.cap r.dly).2 rs

/-- Every addLink call of the sequence succeeds. -/
def runLinksOk : Topology → List LinkReq → Prop
  | _, [] => True
  | t, r :: rs =>
    (addLink t r.n1 r.n2 r.cap r.dly).1 = .ok () ∧
      runLinksOk (addLink t r.n1 r.n2 r.cap r.dly).2 rs

def runLinksOkDec : (t : Topology) → (rs : List LinkReq) → Decidable (runLinksOk t rs)
  | _, [] => isTrue trivial
  | t, r :: rs =>
    have : Decidable (runLinksOk (addLink t r.n1 r.n2 r.cap r.dly).2 rs) := runLinksOkDec _ rs
    inferInstanceAs (Decidable (_ ∧ _))

instance (t : Topology) (rs : List LinkReq) : Decidable (runLinksOk t rs) :=
  runLinksOkDec t rs

/-- Concrete example topology: addHost() → h0, addSwitch() → s0, one link
h0–s0 at 100mbps/10ms. -/
def tEx : Topology :=
  let t0 := mkTopology "test" true
  let (_, t1) := addHost t0 none
  let (_, t2) := addSwitch t1 none
  let (_, t3) := addLink t2 "h0" "s0" "100mbps" "10ms"
  t3

/-- Concrete example topology with node names disjoint from tEx. -/
def tB : Topology :=
  let t0 := mkTopology "big" true
  let (_, t1) := addHost t0 (some "a0")
  let (_, t2) := addHost t1 (some "a1")
  let (_, t3) := addSwitch t2 (some "b0")
  let (_, t4) := addLink t3 "a0" "b0" "100mbps" "10ms"
  let (_, t5) := addLink t4 "a1" "b0" "100mbps" "10ms"
  t5

/-- Concrete three-hosts star used for address exhaustion: h0,h1,h2 each
linked to s0. -/
def tStar : Topology :=
  let t0 := mkTopology "star" true
  let (_, t1) := addHost t0 none
  let (_, t2) := addHost t1 none
  let (_, t3) := addHost t2 none
  let (_, t4) := addSwitch t3 none
  let (_, t5) := addLink t4 "h0" "s0" "100mbps" "10ms"
  let (_, t6) := addLink t5 "h1" "s0" "100mbps" "10ms"
  let (_, t7) := addLink t6 "h2" "s0" "100mbps" "10ms"
  t7

/-- A node reconstructed the way deserialization intends (Node.__init__
with an 'interfaces' keyword carrying one serialized interface). -/
def nodeC9 : NodeObj :=
  nodeInitFromKwargs [("interfaces", KwVal.vifs [("eth0", "eth0 mac:aa:bb:cc:dd:ee:ff")])]

/-- Concrete topology built with auto MAC assignment disabled. -/
def tNA : Topology :=
  let t0 := mkTopology "na" false
  let (_, t1) := addHost t0 none
  let (_, t2) := addSwitch t1 none
  t2

theorem digVal_digChar : ∀ d, d < 16 → digVal (digChar d) = d := by decide

theorem digChar_ne_colon : ∀ d, d < 16 → digChar d ≠ ':' := by decide

theorem foldr_digVal_eq (b : Nat) (hb : b ≤ 16) :
    ∀ l : List Nat, (∀ d ∈ l, d < b) →
      l.foldr (fun d acc => acc * b + digVal (digChar d)) 0 = Nat.ofDigits b l := by
  intro l
  induction l with
  | nil => intro _; simp [Nat.ofDigits_nil]
  | cons d l ih =>
    intro h
    have hd : d < b := h d (by simp)
    have hl : ∀ x ∈ l, x < b := fun x hx => h x (by simp [hx])
    simp only [List.foldr_cons, ih hl, Nat.ofDigits_cons]
    rw [digVal_digChar d (lt_of_lt_of_le hd hb)]
    ring

theorem digitsAux_lt (b : Nat) (hb : 0 < b) :
    ∀ fuel n, ∀ d ∈ digitsAux b fuel n, d < b := by
  intro fuel
  induction fuel with
  | zero => intro n d hd; cases hd
  | succ fuel ih =>
    intro n d hd
    cases n with
    | zero => cases hd
    | succ m =>
      simp only [digitsAux, List.mem_cons] at hd
      rcases hd with rfl | hd
      · exact Nat.mod_lt _ hb
      · exact ih _ d hd

theorem digitsAux_ofDigits (b : Nat) (hb : 2 ≤ b) :
    ∀ fuel n, n ≤ fuel → Nat.ofDigits b (digitsAux b fuel n) = n := by
  intro fuel
  induction fuel with
  | zero =>
    intro n hn
    interval_cases n
    simp [digitsAux, Nat.ofDigits_nil]
  | succ fuel ih =>
    intro n hn
    cases n with
    | zero => simp [digitsAux, Nat.ofDigits_nil]
    | succ m =>
      have hdiv : (m + 1) / b ≤ fuel := by
        have h2 : (m + 1) / b < m + 1 := Nat.div_lt_self (by omega) (by omega)
        omega
      simp only [digitsAux, Nat.ofDigits_cons, ih _ hdiv]
      have := Nat.mod_add_div (m + 1) b
      omega

theorem unDigits_natDigits (b n : Nat) (hb1 : 1 < b) (hb : b ≤ 16) :
    unDigits b (natDigits b n) = n := by
  unfold unDigits natDigits
  rw [List.map_reverse, List.foldl_reverse, List.foldr_map]
  rw [foldr_digVal_eq b hb _ (fun d hd => digitsAux_lt b (by omega) n n d hd)]
  exact digitsAux_ofDigits b (by omega) n n (le_refl n)

theorem natToStr_val (n : Nat) : unDigits 10 (natToStr n).data = n := by
  by_cases h : n = 0
  · subst h; decide
  · rw [natToStr, if_neg h]
    exact unDigits_natDigits 10 n (by omega) (by omega)

theorem natToStr_inj {m n : Nat} (h : natToStr m = natToStr n) : m = n := by
  have hm := natToStr_val m
  rw [h, natToStr_val] at hm
  omega

theorem append_natToStr_inj (tag : String) {m n : Nat}
    (h : tag ++ natToStr m = tag ++ natToStr n) : m = n := by
  have hd : (tag ++ natToStr m).data = (tag ++ natToStr n).data := by rw [h]
  rw [String.data_append, String.data_append] at hd
  have hdd := List.append_cancel_left hd
  have hm := natToStr_val m
  rw [hdd, natToStr_val] at hm
  omega

theorem chunk2_join : ∀ cs : List Char, (chunk2 cs).flatten = cs
  | [] => rfl
  | [_] => rfl
  | c1 :: c2 :: rest => by
    simp only [chunk2, List.flatten_cons, List.cons_append, List.nil_append]
    rw [chunk2_join rest]

theorem joinColon_filter : ∀ chunks : List (List Char),
    (∀ c ∈ chunks.flatten, c ≠ ':') →
    (joinColon chunks).filter (fun c => c != ':') = chunks.flatten
  | [] => by intro _; rfl
  | [c] => by
    intro h
    simp only [joinColon, List.flatten_cons, List.flatten_nil, List.append_nil] at h ⊢
    apply List.filter_eq_self.mpr
    intro a ha
    simpa using h a ha
  | c :: c2 :: rest => by
    intro h
    have h1 : ∀ a ∈ c, a ≠ ':' := fun a ha => h a (by simp [List.flatten_cons, ha])
    have h2 : ∀ a ∈ (c2 :: rest).flatten, a ≠ ':' :=
      fun a ha => h a (by simp only [List.flatten_cons] at ha ⊢; simp [ha])
    have ih := joinColon_filter (c2 :: rest) h2
    simp only [joinColon, List.filter_append, List.filter_cons] at ih ⊢
    have hcolon : ((':' : Char) != ':') = false := by decide
    rw [hcolon]
    simp only [List.flatten_cons]
    rw [ih]
    congr 1
    apply List.filter_eq_self.mpr
    intro a ha
    simpa using h1 a ha

theorem hexPad12_mem (n : Nat) : ∀ x ∈ hexPad12 n, x ≠ ':' := by
  intro x hx
  unfold hexPad12 at hx
  rw [List.mem_append] at hx
  rcases hx with hx | hx
  · rw [List.mem_replicate] at hx
    rw [hx.2]; decide
  · by_cases h : n = 0
    · simp [h] at hx
      rw [hx]; decide
    · simp only [h, if_neg, ite_false] at hx
      unfold natDigits at hx
      rw [List.mem_map] at hx
      obtain ⟨d, hd, hdx⟩ := hx
      rw [List.mem_reverse] at hd
      have := digitsAux_lt 16 (by omega) n n d hd
      rw [← hdx]
      exact digChar_ne_colon d this

theorem foldl_digVal_zeros : ∀ k : Nat,
    List.foldl (fun a c => a * 16 + digVal c) 0 (List.replicate k '0') = 0
  | 0 => rfl
  | k + 1 => by
    rw [List.replicate_succ, List.foldl_cons]
    show List.foldl _ (0 * 16 + digVal '0') _ = 0
    have : 0 * 16 + digVal '0' = 0 := by decide
    rw [this]
    exact foldl_digVal_zeros k

theorem unDigits_hexPad12 (n : Nat) : unDigits 16 (hexPad12 n) = n := by
  unfold hexPad12
  show List.foldl _ 0 _ = n
  rw [List.foldl_append, foldl_digVal_zeros]
  by_cases h : n = 0
  · simp only [h, ite_true]; decide
  · simp only [h, ite_false]
    exact unDigits_natDigits 16 n (by omega) (by omega)

theorem macVal_macFormat (n : Nat) : macVal (macFormat n) = n := by
  unfold macVal macFormat
  show unDigits 16 ((joinColon (chunk2 (hexPad12 n))).filter fun c => c != ':') = n
  have hnc : ∀ c ∈ (chunk2 (hexPad12 n)).flatten, c ≠ ':' := by
    rw [chunk2_join]; exact hexPad12_mem n
  rw [joinColon_filter _ hnc, chunk2_join]
  exact unDigits_hexPad12 n

theorem macFormat_inj {m n : Nat} (h : macFormat m = macFormat n) : m = n := by
  have hm := macVal_macFormat m
  rw [h, macVal_macFormat] at hm
  omega

theorem genName_shape (t : Topology) (tag : String) :
    ∀ fuel cnt, ∃ k, genName t tag cnt fuel = (tag ++ natToStr k, k + 1) := by
  intro fuel
  induction fuel with
  | zero => intro cnt; exact ⟨cnt, rfl⟩
  | succ fuel ih =>
    intro cnt
    unfold genName
    by_cases h : (tag ++ natToStr cnt) ∈ nodeNames t
    · simp only [h, ite_true]
      exact ih (cnt + 1)
    · exact ⟨cnt, by simp [h]⟩

theorem genName_free (t : Topology) (tag : String) :
    ∀ fuel cnt, (∃ i, i < fuel ∧ (tag ++ natToStr (cnt + i)) ∉ nodeNames t) →
      (genName t tag cnt fuel).1 ∉ nodeNames t := by
  intro fuel
  induction fuel with
  | zero =>
    intro cnt h
    obtain ⟨i, hi, _⟩ := h
    omega
  | succ fuel ih =>
    intro cnt h
    obtain ⟨i, hi, hfree⟩ := h
    unfold genName
    by_cases hmem : (tag ++ natToStr cnt) ∈ nodeNames t
    · simp only [hmem, ite_true]
      apply ih
      have hi0 : i ≠ 0 := by
        rintro rfl
        rw [Nat.add_zero] at hfree
        exact hfree hmem
      refine ⟨i - 1, by omega, ?_⟩
      have : cnt + 1 + (i - 1) = cnt + i := by omega
      rw [this]
      exact hfree
    · simp only [hmem, ite_false]
      simp [hmem]

theorem exists_free_idx (t : Topology) (tag : String) (cnt : Nat) :
    ∃ i, i < t.nodes.length + 1 ∧ (tag ++ natToStr (cnt + i)) ∉ nodeNames t := by
  by_contra hc
  push_neg at hc
  have hnd : ((List.range (t.nodes.length + 1)).map (fun i => tag ++ natToStr (cnt + i))).Nodup := by
    apply List.Nodup.map
    · intro a b hab
      have := append_natToStr_inj tag hab
      omega
    · exact List.nodup_range _
  have hsub : ∀ x ∈ (List.range (t.nodes.length + 1)).map (fun i => tag ++ natToStr (cnt + i)),
      x ∈ nodeNames t := by
    intro x hx
    rw [List.mem_map] at hx
    obtain ⟨i, hi, rfl⟩ := hx
    exact hc i (List.mem_range.mp hi)
  have h1 := List.toFinset_card_of_nodup hnd
  have h2 : ((List.range (t.nodes.length + 1)).map
      (fun i => tag ++ natToStr (cnt + i))).toFinset ⊆ (nodeNames t).toFinset := by
    intro x hx
    rw [List.mem_toFinset] at hx ⊢
    exact hsub x hx
  have h3 := Finset.card_le_card h2
  have h4 : (nodeNames t).toFinset.card ≤ (nodeNames t).length := (nodeNames t).toFinset_card_le
  have h5 : (nodeNames t).length = t.nodes.length := by simp [nodeNames]
  simp only [h1, List.length_map, List.length_range] at h3
  omega

theorem genName_fresh (t : Topology) (tag : String) (cnt : Nat) :
    (genName t tag cnt (t.nodes.length + 1)).1 ∉ nodeNames t :=
  genName_free t tag (t.nodes.length + 1) cnt (exists_free_idx t tag cnt)

theorem dictGet_mapVal {α : Type} (g : String → α → α) :
    ∀ (d : List (String × α)) (k : String),
      dictGet (d.map (fun p => (p.1, g p.1 p.2))) k = (dictGet d k).map (g k)
  | [], _ => rfl
  | (k', v) :: rest, k => by
    simp only [List.map_cons, dictGet]
    by_cases h : k' = k
    · subst h
      simp
    · simp [h, dictGet_mapVal g rest k]

theorem dictSet_fresh {α : Type} :
    ∀ (d : List (String × α)) (k : String) (v : α),
      k ∉ d.map (fun p => p.1) → dictSet d k v = d ++ [(k, v)]
  | [], _, _, _ => rfl
  | (k', v') :: rest, k, v, h => by
    simp only [List.map_cons, List.mem_cons] at h
    push_neg at h
    simp only [dictSet, List.cons_append]
    rw [if_neg (fun hk => h.1 hk.symm), dictSet_fresh rest k v h.2]

theorem dictGet_set_self {α : Type} : ∀ (d : List (String × α)) (k : String) (v : α),
    dictGet (dictSet d k v) k = some v := by
  intro d
  induction d with
  | nil =>
    intro k v
    simp [dictSet, dictGet]
  | cons p rest ih =>
    intro k v
    obtain ⟨k', v'⟩ := p
    by_cases hk : k' = k
    · simp [dictSet, hk, dictGet]
    · simp only [dictSet, if_neg hk, dictGet]
      exact ih k v

theorem dictGet_set_ne {α : Type} : ∀ (d : List (String × α)) (k m : String) (v : α),
    m ≠ k → dictGet (dictSet d k v) m = dictGet d m := by
  intro d
  induction d with
  | nil =>
    intro k m v h
    simp only [dictSet, dictGet]
    rw [if_neg (fun hh => h hh.symm)]
  | cons p rest ih =>
    intro k m v h
    obtain ⟨k', v'⟩ := p
    by_cases hk : k' = k
    · simp only [dictSet, if_pos hk, dictGet]
      rw [if_neg (fun hh => h hh.symm), if_neg (fun hh : k' = m => h (hk ▸ hh).symm)]
    · simp only [dictSet, if_neg hk, dictGet]
      by_cases hm : k' = m
      · rw [if_pos hm, if_pos hm]
      · rw [if_neg hm, if_neg hm]
        exact ih k m v h

theorem findNode_overNode (t : Topology) (n : String) (f : NodeObj → NodeObj) (m : String) :
    findNode (overNode t n f) m =
      (findNode t m).map (fun ne =>
        if ne.name = n then { ne with nodeobj := f ne.nodeobj } else ne) := by
  unfold findNode overNode
  rw [List.find?_map]
  have hpred : ((fun ne : NodeEntry => ne.name == m) ∘
      (fun ne => if ne.name = n then { ne with nodeobj := f ne.nodeobj } else ne)) =
      (fun ne : NodeEntry => ne.name == m) := by
    funext ne
    by_cases h : ne.name = n <;> simp [h]
  rw [hpred]

theorem findNode_name {t : Topology} {m : String} {ne : NodeEntry}
    (h : findNode t m = some ne) : ne.name = m := by
  unfold findNode at h
  have := List.find?_some h
  simpa using this

theorem findNode_mem {t : Topology} {m : String} {ne : NodeEntry}
    (h : findNode t m = some ne) : ne ∈ t.nodes := by
  unfold findNode at h
  exact List.mem_of_find?_eq_some h

theorem findNode_isSome_of_mem {t : Topology} {m : String} (h : m ∈ nodeNames t) :
    (findNode t m).isSome = true := by
  unfold findNode
  unfold nodeNames at h
  rw [List.mem_map] at h
  obtain ⟨ne, hne, rfl⟩ := h
  rw [List.find?_isSome]
  exact ⟨ne, hne, by simp⟩

theorem getIf_setIfIpMask (t : Topology) (node ifn : String) (ip mask : Nat) (m i : String) :
    getIf (setIfIpMask t node ifn ip mask) m i =
      (getIf t m i).map (fun ifc =>
        if m = node ∧ i = ifn then { ifc with ipaddr := ip, netmask := mask } else ifc) := by
  unfold getIf setIfIpMask
  rw [findNode_overNode]
  cases hf : findNode t m with
  | none => rfl
  | some ne =>
    have hname : ne.name = m := findNode_name hf
    by_cases h : ne.name = node
    · simp only [Option.map_some', h, ite_true]
      show dictGet (ne.nodeobj.interfaces.map fun p => (p.1, updIface ifn ip mask p.1 p.2)) i = _
      rw [dictGet_mapVal]
      have hm : m = node := by rw [← hname, h]
      cases dictGet ne.nodeobj.interfaces i with
      | none => rfl
      | some v =>
        simp [hm, updIface]
    · simp only [Option.map_some', h, ite_false]
      have hm : ¬(m = node) := by rw [← hname]; exact h
      cases dictGet ne.nodeobj.interfaces i with
      | none => rfl
      | some v => simp [hm]

/-- C10: for every existing link between node1 and node2, getLinkInterfaces
returns a pair both of whose components are the interface-name entry that
the link stores for node1 — the node2 entry is never consulted. -/
theorem C10_getLinkInterfaces_node1_twice (t : Topology) (node1 node2 : String) (e : Edge)
    (he : edgeBetween t node1 node2 = some e) :
    getLinkInterfaces t node1 node2 = some (dictGet e.ifmap node1, dictGet e.ifmap node1) := by
  unfold getLinkInterfaces
  rw [he]

theorem C10_witness : ∃ e, edgeBetween tEx "h0" "s0" = some e ∧
    getLinkInterfaces tEx "h0" "s0" = some (dictGet e.ifmap "h0", dictGet e.ifmap "h0") := by
  cases he : edgeBetween tEx "h0" "s0" with
  | none =>
    have : (edgeBetween tEx "h0" "s0").isSome = true := by decide
    rw [he] at this
    simp at this
  | some e => exact ⟨e, rfl, C10_getLinkInterfaces_node1_twice tEx "h0" "s0" e he⟩

/-- C1: counterexample evaluation for the round-trip claim. In tEx both
nodes carry exactly one interface (eth0), and node names and types do
survive the round trip, but deserialize(serialize(tEx)) returns both nodes
with an empty interface dict: Topology.unserialize passes the node
attribute dict (keys label/nodeobj/type) as keyword arguments, so
Node.__init__ never sees an 'interfaces' keyword and drops all interface
records. -/
theorem C1_roundtrip_drops_interfaces :
    tEx.nodes.map (fun ne => (ne.name, ne.type, ne.nodeobj.interfaces.map (fun p => p.1))) =
      [("h0", "Host", ["eth0"]), ("s0", "Switch", ["eth0"])] ∧
    (unserialize (serialize tEx)).map (fun t' =>
      t'.nodes.map (fun ne => (ne.name, ne.type, ne.nodeobj.interfaces.map (fun p => p.1)))) =
      .ok [("h0", "Host", []), ("s0", "Switch", [])] := by
  constructor
  · rfl
  · rfl

/-- C9: counterexample evaluation. A node reconstructed with one existing
interface eth0 (as deserialization intends to do) has ifnum left at 0, so
the next addInterface returns the name eth0 again — a name already present
on the node — and overwrites the stored interface record. -/
theorem C9_interface_name_reused :
    nodeC9.interfaces.map (fun p => p.1) = ["eth0"] ∧
    (nodeAddInterface nodeC9 none none none).1 = "eth0" ∧
    dictGet (nodeAddInterface nodeC9 none none none).2.interfaces "eth0" ≠
      dictGet nodeC9.interfaces "eth0" := by
  refine ⟨rfl, rfl, ?_⟩
  decide

/-- C7: unioning two topologies with disjoint node names (rename false)
succeeds and the result holds exactly the nodes and links of both inputs,
so its node and link counts are the sums of the inputs' counts. The
embedded unionNoRename is pure: the rename=False path of Topology.union
performs no write to either input. -/
theorem C7_union_disjoint (t1 t2 : Topology)
    (hdisj : ∀ n ∈ nodeNames t1, n ∉ nodeNames t2) :
    ∃ u, unionNoRename t1 t2 = .ok u ∧
      u.nodes = t1.nodes ++ t2.nodes ∧ u.edges = t1.edges ++ t2.edges ∧
      u.nodes.length = t1.nodes.length + t2.nodes.length ∧
      u.edges.length = t1.edges.length + t2.edges.length := by
  unfold unionNoRename
  have hall : (nodeNames t1).all (fun n => !(nodeNames t2).contains n) = true := by
    rw [List.all_eq_true]
    intro n hn
    simpa using hdisj n hn
  rw [if_pos hall]
  exact ⟨_, rfl, rfl, rfl, by simp, by simp⟩

theorem C7_witness : (∀ n ∈ nodeNames tEx, n ∉ nodeNames tB) ∧
    ∃ u, unionNoRename tEx tB = .ok u ∧
      u.nodes.length = 5 ∧ u.edges.length = 3 := by
  refine ⟨by decide, ?_⟩
  obtain ⟨u, h1, _, _, h4, h5⟩ := C7_union_disjoint tEx tB (by decide)
  refine ⟨u, h1, ?_, ?_⟩
  · rw [h4]; rfl
  · rw [h5]; rfl

theorem nodeNames_hnum (t : Topology) (k : Nat) : nodeNames { t with hnum := k } = nodeNames t := rfl

theorem nodeNames_snum (t : Topology) (k : Nat) : nodeNames { t with snum := k } = nodeNames t := rfl

theorem nodeNames_rnum (t : Topology) (k : Nat) : nodeNames { t with rnum := k } = nodeNames t := rfl

theorem addNode_fresh_eq (t : Topology) (n cls : String) (h : n ∉ nodeNames t) :
    addNode t n cls = (.ok (),
      { t with nodes := t.nodes ++
          [{ name := n, label := n, type := cls, cls := cls,
             nodeobj := { ifnum := 0, interfaces := [] } }] }) := by
  unfold addNode
  rw [if_neg h]

theorem addNode_dup (t : Topology) (n cls : String) (h : n ∈ nodeNames t) :
    addNode t n cls = (.error (.duplicateNode n), t) := by
  unfold addNode
  rw [if_pos h]

theorem addHost_some_dup (t : Topology) (n : String) (h : n ∈ nodeNames t) :
    addHost t (some n) = (.error (.duplicateNode n), t) := by
  simp only [addHost, addNode_dup t n "Host" h]

theorem addSwitch_some_dup (t : Topology) (n : String) (h : n ∈ nodeNames t) :
    addSwitch t (some n) = (.error (.duplicateNode n), t) := by
  simp only [addSwitch, addNode_dup t n "Switch" h]

theorem addRouter_some_dup (t : Topology) (n : String) (h : n ∈ nodeNames t) :
    addRouter t (some n) = (.error (.duplicateNode n), t) := by
  simp only [addRouter, addNode_dup t n "Router" h]

theorem addHost_some_fresh (t : Topology) (n : String) (h : n ∉ nodeNames t) :
    addHost t (some n) = (.ok n,
      { t with nodes := t.nodes ++
          [{ name := n, label := n, type := "Host", cls := "Host",
             nodeobj := { ifnum := 0, interfaces := [] } }] }) := by
  simp only [addHost, addNode_fresh_eq t n "Host" h]

theorem addSwitch_some_fresh (t : Topology) (n : String) (h : n ∉ nodeNames t) :
    addSwitch t (some n) = (.ok n,
      { t with nodes := t.nodes ++
          [{ name := n, label := n, type := "Switch", cls := "Switch",
             nodeobj := { ifnum := 0, interfaces := [] } }] }) := by
  simp only [addSwitch, addNode_fresh_eq t n "Switch" h]

theorem addRouter_some_fresh (t : Topology) (n : String) (h : n ∉ nodeNames t) :
    addRouter t (some n) = (.ok n,
      { t with nodes := t.nodes ++
          [{ name := n, label := n, type := "Router", cls := "Router",
             nodeobj := { ifnum := 0, interfaces := [] } }] }) := by
  simp only [addRouter, addNode_fresh_eq t n "Router" h]

theorem addHost_none_eq (t : Topology) :
    ∃ n h', genName t "h" t.hnum (t.nodes.length + 1) = (n, h') ∧ n ∉ nodeNames t ∧
      addHost t none = (.ok n,
        { t with hnum := h', nodes := t.nodes ++
            [{ name := n, label := n, type := "Host", cls := "Host",
               nodeobj := { ifnum := 0, interfaces := [] } }] }) := by
  rcases hgn : genName t "h" t.hnum (t.nodes.length + 1) with ⟨n, h'⟩
  have hfree : n ∉ nodeNames t := by
    have := genName_fresh t "h" t.hnum
    rw [hgn] at this
    exact this
  refine ⟨n, h', rfl, hfree, ?_⟩
  have hfree1 : n ∉ nodeNames { t with hnum := h' } := hfree
  simp only [addHost, hgn, addNode_fresh_eq _ n "Host" hfree1]

theorem addSwitch_none_eq (t : Topology) :
    ∃ n s', genName t "s" t.snum (t.nodes.length + 1) = (n, s') ∧ n ∉ nodeNames t ∧
      addSwitch t none = (.ok n,
        { t with snum := s', nodes := t.nodes ++
            [{ name := n, label := n, type := "Switch", cls := "Switch",
               nodeobj := { ifnum := 0, interfaces := [] } }] }) := by
  rcases hgn : genName t "s" t.snum (t.nodes.length + 1) with ⟨n, s'⟩
  have hfree : n ∉ nodeNames t := by
    have := genName_fresh t "s" t.snum
    rw [hgn] at this
    exact this
  refine ⟨n, s', rfl, hfree, ?_⟩
  have hfree1 : n ∉ nodeNames { t with snum := s' } := hfree
  simp only [addSwitch, hgn, addNode_fresh_eq _ n "Switch" hfree1]

theorem addRouter_none_eq (t : Topology) :
    ∃ n r', genName t "r" t.rnum (t.nodes.length + 1) = (n, r') ∧ n ∉ nodeNames t ∧
      addRouter t none = (.ok n,
        { t with rnum := r', nodes := t.nodes ++
            [{ name := n, label := n, type := "Router", cls := "Router",
               nodeobj := { ifnum := 0, interfaces := [] } }] }) := by
  rcases hgn : genName t "r" t.rnum (t.nodes.length + 1) with ⟨n, r'⟩
  have hfree : n ∉ nodeNames t := by
    have := genName_fresh t "r" t.rnum
    rw [hgn] at this
    exact this
  refine ⟨n, r', rfl, hfree, ?_⟩
  have hfree1 : n ∉ nodeNames { t with rnum := r' } := hfree
  simp only [addRouter, hgn, addNode_fresh_eq _ n "Router" hfree1]

/-- C3: each add operation raises only before it mutates anything: whenever
addHost/addSwitch/addRouter/addLink returns an error, the returned topology
is exactly the input (no partial node or link, no new interface, no counter
change). The capacity/delay parse is spec-modelled as total, so addLink
raises only on its node-existence checks, before any mutation. -/
theorem C3_add_atomic :
    (∀ (t : Topology) (nm : Option String) (e : TopoError),
      (addHost t nm).1 = .error e → (addHost t nm).2 = t) ∧
    (∀ (t : Topology) (nm : Option String) (e : TopoError),
      (addSwitch t nm).1 = .error e → (addSwitch t nm).2 = t) ∧
    (∀ (t : Topology) (nm : Option String) (e : TopoError),
      (addRouter t nm).1 = .error e → (addRouter t nm).2 = t) ∧
    (∀ (t : Topology) (n1 n2 c d : String) (e : TopoError),
      (addLink t n1 n2 c d).1 = .error e → (addLink t n1 n2 c d).2 = t) := by
  refine ⟨?_, ?_, ?_, ?_⟩
  · intro t nm e h
    match nm with
    | some n =>
      by_cases hn : n ∈ nodeNames t
      · rw [addHost_some_dup t n hn]
      · rw [addHost_some_fresh t n hn] at h
        cases h
    | none =>
      obtain ⟨n, h', -, -, heq⟩ := addHost_none_eq t
      rw [heq] at h
      cases h
  · intro t nm e h
    match nm with
    | some n =>
      by_cases hn : n ∈ nodeNames t
      · rw [addSwitch_some_dup t n hn]
      · rw [addSwitch_some_fresh t n hn] at h
        cases h
    | none =>
      obtain ⟨n, s', -, -, heq⟩ := addSwitch_none_eq t
      rw [heq] at h
      cases h
  · intro t nm e h
    match nm with
    | some n =>
      by_cases hn : n ∈ nodeNames t
      · rw [addRouter_some_dup t n hn]
      · rw [addRouter_some_fresh t n hn] at h
        cases h
    | none =>
      obtain ⟨n, r', -, -, heq⟩ := addRouter_none_eq t
      rw [heq] at h
      cases h
  · intro t n1 n2 c d e h
    unfold addLink at h ⊢
    by_cases h1 : n1 ∈ nodeNames t
    · rw [if_neg (not_not_intro h1)] at h ⊢
      by_cases h2 : n2 ∈ nodeNames t
      · rw [if_neg (not_not_intro h2)] at h
        by_cases ha : t.auto_macs = true
        · rw [if_pos ha] at h
          cases h
        · rw [if_neg ha] at h
          cases h
      · rw [if_pos h2] at h ⊢
    · rw [if_pos h1] at h ⊢

theorem C3_witness :
    (addHost tEx (some "h0")).1 = .error (.duplicateNode "h0") ∧
    (addHost tEx (some "h0")).2 = tEx ∧
    (addLink tEx "h0" "nosuch" "100mbps" "10ms").1 = .error (.unknownNode "nosuch") ∧
    (addLink tEx "h0" "nosuch" "100mbps" "10ms").2 = tEx := by
  refine ⟨by decide, C3_add_atomic.1 tEx (some "h0") (.duplicateNode "h0") (by decide),
    by decide, C3_add_atomic.2.2.2 tEx "h0" "nosuch" "100mbps" "10ms"
      (.unknownNode "nosuch") (by decide)⟩

/-- C6: node names stay unique. Adding a node under an explicit name that
already exists fails with the duplicate-node error, and adding a node
without a name returns a fresh auto-name tag<N> that differs from every
node name present at call time (hence from every previously generated one,
all of which are present) and is recorded in the topology. -/
theorem C6_node_name_unique :
    (∀ (t : Topology) (n : String), n ∈ nodeNames t →
      (addHost t (some n)).1 = .error (.duplicateNode n)) ∧
    (∀ (t : Topology) (n : String), n ∈ nodeNames t →
      (addSwitch t (some n)).1 = .error (.duplicateNode n)) ∧
    (∀ (t : Topology) (n : String), n ∈ nodeNames t →
      (addRouter t (some n)).1 = .error (.duplicateNode n)) ∧
    (∀ t : Topology, ∃ k, (addHost t none).1 = .ok ("h" ++ natToStr k) ∧
      ("h" ++ natToStr k) ∉ nodeNames t ∧
      ("h" ++ natToStr k) ∈ nodeNames (addHost t none).2) ∧
    (∀ t : Topology, ∃ k, (addSwitch t none).1 = .ok ("s" ++ natToStr k) ∧
      ("s" ++ natToStr k) ∉ nodeNames t ∧
      ("s" ++ natToStr k) ∈ nodeNames (addSwitch t none).2) ∧
    (∀ t : Topology, ∃ k, (addRouter t none).1 = .ok ("r" ++ natToStr k) ∧
      ("r" ++ natToStr k) ∉ nodeNames t ∧
      ("r" ++ natToStr k) ∈ nodeNames (addRouter t none).2) := by
  refine ⟨?_, ?_, ?_, ?_, ?_, ?_⟩
  · intro t n hn
    rw [addHost_some_dup t n hn]
  · intro t n hn
    rw [addSwitch_some_dup t n hn]
  · intro t n hn
    rw [addRouter_some_dup t n hn]
  · intro t
    obtain ⟨n, h', hgn, hfree, heq⟩ := addHost_none_eq t
    obtain ⟨k, hk⟩ := genName_shape t "h" (t.nodes.length + 1) t.hnum
    rw [hgn] at hk
    have hk1 : n = "h" ++ natToStr k := congrArg Prod.fst hk
    refine ⟨k, ?_, ?_, ?_⟩
    · rw [heq, ← hk1]
    · rw [← hk1]; exact hfree
    · rw [heq, ← hk1]
      simp [nodeNames]
  · intro t
    obtain ⟨n, s', hgn, hfree, heq⟩ := addSwitch_none_eq t
    obtain ⟨k, hk⟩ := genName_shape t "s" (t.nodes.length + 1) t.snum
    rw [hgn] at hk
    have hk1 : n = "s" ++ natToStr k := congrArg Prod.fst hk
    refine ⟨k, ?_, ?_, ?_⟩
    · rw [heq, ← hk1]
    · rw [← hk1]; exact hfree
    · rw [heq, ← hk1]
      simp [nodeNames]
  · intro t
    obtain ⟨n, r', hgn, hfree, heq⟩ := addRouter_none_eq t
    obtain ⟨k, hk⟩ := genName_shape t "r" (t.nodes.length + 1) t.rnum
    rw [hgn] at hk
    have hk1 : n = "r" ++ natToStr k := congrArg Prod.fst hk
    refine ⟨k, ?_, ?_, ?_⟩
    · rw [heq, ← hk1]
    · rw [← hk1]; exact hfree
    · rw [heq, ← hk1]
      simp [nodeNames]

theorem C6_witness :
    ("h0" ∈ nodeNames tEx ∧
      (addHost tEx (some "h0")).1 = .error (.duplicateNode "h0")) ∧
    ∃ k, (addHost tEx none).1 = .ok ("h" ++ natToStr k) ∧
      ("h" ++ natToStr k) ∉ nodeNames tEx ∧
      ("h" ++ natToStr k) ∈ nodeNames (addHost tEx none).2 :=
  ⟨⟨by decide, C6_node_name_unique.1 tEx "h0" (by decide)⟩,
    C6_node_name_unique.2.2.2.1 tEx⟩

theorem nodeWF_fresh (no : NodeObj) (h : NodeWF no) :
    ("eth" ++ natToStr no.ifnum) ∉ no.interfaces.map (fun p => p.1) := by
  intro hm
  rw [List.mem_map] at hm
  obtain ⟨p, hp, hq⟩ := hm
  obtain ⟨k, hk, hkeq⟩ := h.2 p hp
  rw [hkeq] at hq
  have := append_natToStr_inj "eth" hq
  rw [List.mem_range] at hk
  omega

theorem topoAddInterface_edges (t : Topology) (n : String) (eth : Option String) :
    (topoAddInterface t n eth).2.edges = t.edges := by
  unfold topoAddInterface
  cases findNode t n <;> rfl

theorem nodeNames_overNode (t : Topology) (n : String) (f : NodeObj → NodeObj) :
    nodeNames (overNode t n f) = nodeNames t := by
  simp only [nodeNames, overNode, List.map_map]
  apply List.map_congr_left
  intro ne _
  by_cases h : ne.name = n <;> simp [h]

theorem topoAddInterface_nodeNames (t : Topology) (n : String) (eth : Option String) :
    nodeNames (topoAddInterface t n eth).2 = nodeNames t := by
  unfold topoAddInterface
  cases findNode t n
  · rfl
  · exact nodeNames_overNode t n _

theorem findNode_topoAdd_self (t : Topology) (n : String) (eth : Option String) (ne : NodeEntry)
    (hf : findNode t n = some ne) :
    (topoAddInterface t n eth).1 = "eth" ++ natToStr ne.nodeobj.ifnum ∧
    findNode (topoAddInterface t n eth).2 n =
      some { ne with nodeobj := (nodeAddInterface ne.nodeobj eth none none).2 } := by
  unfold topoAddInterface
  rw [hf]
  refine ⟨rfl, ?_⟩
  show findNode (setNodeObj t n _) n = _
  unfold setNodeObj
  rw [findNode_overNode, hf]
  simp [findNode_name hf]

theorem findNode_topoAdd_ne (t : Topology) (n : String) (eth : Option String) (m : String)
    (hm : m ≠ n) : findNode (topoAddInterface t n eth).2 m = findNode t m := by
  unfold topoAddInterface
  cases hf : findNode t n
  · rfl
  · show findNode (setNodeObj t n _) m = _
    unfold setNodeObj
    rw [findNode_overNode]
    cases hfm : findNode t m
    · rfl
    · rename_i ne'
      have hn : ne'.name = m := findNode_name hfm
      simp [hn, hm]

theorem ensureEdge_nodes (t : Topology) (n1 n2 : String) :
    (ensureEdge t n1 n2).nodes = t.nodes := by
  unfold ensureEdge
  cases edgeBetween t n1 n2 <;> rfl

theorem setEdgeData_nodes (t : Topology) (n1 n2 lab : String) (cap : Nat) (dly : ℚ)
    (if1 if2 : String) : (setEdgeData t n1 n2 lab cap dly if1 if2).nodes = t.nodes := rfl

theorem findNode_nodes_eq {t t' : Topology} (h : t'.nodes = t.nodes) (m : String) :
    findNode t' m = findNode t m := by
  unfold findNode
  rw [h]

theorem edgeBetween_edges_eq {t t' : Topology} (h : t'.edges = t.edges) (n1 n2 : String) :
    edgeBetween t' n1 n2 = edgeBetween t n1 n2 := by
  unfold edgeBetween
  rw [h]

theorem ensureEdge_of_some (t : Topology) (n1 n2 : String) (e : Edge)
    (h : edgeBetween t n1 n2 = some e) : ensureEdge t n1 n2 = t := by
  unfold ensureEdge
  rw [h]

theorem edgeMatches_upd (e : Edge) (n1 n2 lab : String) (cap : Nat) (dly : ℚ)
    (if1 if2 : String) :
    edgeMatches (if edgeMatches e n1 n2 then
        { e with label := lab, capacity := cap, delay := dly,
                 ifmap := dictSet (dictSet e.ifmap n1 if1) n2 if2 }
      else e) n1 n2 = edgeMatches e n1 n2 := by
  by_cases h : edgeMatches e n1 n2 = true
  · rw [if_pos h]
    rfl
  · rw [if_neg h]

theorem edgeBetween_setEdgeData (t : Topology) (n1 n2 lab : String) (cap : Nat) (dly : ℚ)
    (if1 if2 : String) :
    edgeBetween (setEdgeData t n1 n2 lab cap dly if1 if2) n1 n2 =
      (edgeBetween t n1 n2).map (fun e =>
        if edgeMatches e n1 n2 then
          { e with label := lab, capacity := cap, delay := dly,
                   ifmap := dictSet (dictSet e.ifmap n1 if1) n2 if2 }
        else e) := by
  unfold edgeBetween setEdgeData
  rw [List.find?_map]
  have hfun : ((fun e : Edge => edgeMatches e n1 n2) ∘ (fun e =>
      if edgeMatches e n1 n2 then
        { e with label := lab, capacity := cap, delay := dly,
                 ifmap := dictSet (dictSet e.ifmap n1 if1) n2 if2 }
      else e)) = (fun e : Edge => edgeMatches e n1 n2) := by
    funext e
    exact edgeMatches_upd e n1 n2 lab cap dly if1 if2
  rw [hfun]

theorem addLinkCore_eq (t : Topology) (node1 node2 : String) (mac1 mac2 : Option String)
    (c d : String) :
    addLinkCore t node1 node2 mac1 mac2 c d =
      setEdgeData
        (ensureEdge (topoAddInterface (topoAddInterface t node1 mac1).2 node2 mac2).2 node1 node2)
        node1 node2
        (humanize_capacity (unhumanize_capacity c) ++ " " ++ humanize_delay (unhumanize_delay d))
        (unhumanize_capacity c) (unhumanize_delay d)
        (topoAddInterface t node1 mac1).1
        (topoAddInterface (topoAddInterface t node1 mac1).2 node2 mac2).1 := rfl

theorem addLinkCore_spec (t : Topology) (n1 n2 : String) (mac1 mac2 : Option String)
    (c d : String) (hne : n1 ≠ n2)
    (ne1 : NodeEntry) (hf1 : findNode t n1 = some ne1) (hw1 : NodeWF ne1.nodeobj)
    (ne2 : NodeEntry) (hf2 : findNode t n2 = some ne2) (hw2 : NodeWF ne2.nodeobj)
    (e : Edge) (hedge : edgeBetween t n1 n2 = some e) :
    (addLinkCore t n1 n2 mac1 mac2 c d).edges.length = t.edges.length ∧
    (∃ e', edgeBetween (addLinkCore t n1 n2 mac1 mac2 c d) n1 n2 = some e' ∧
      e'.label = humanize_capacity (unhumanize_capacity c) ++ " " ++
        humanize_delay (unhumanize_delay d) ∧
      e'.capacity = unhumanize_capacity c ∧ e'.delay = unhumanize_delay d ∧
      dictGet e'.ifmap n1 = some ("eth" ++ natToStr ne1.nodeobj.ifnum) ∧
      dictGet e'.ifmap n2 = some ("eth" ++ natToStr ne2.nodeobj.ifnum)) ∧
    (findNode (addLinkCore t n1 n2 mac1 mac2 c d) n1).map
        (fun ne => ne.nodeobj.interfaces.length) = some (ne1.nodeobj.interfaces.length + 1) ∧
    (findNode (addLinkCore t n1 n2 mac1 mac2 c d) n2).map
        (fun ne => ne.nodeobj.interfaces.length) = some (ne2.nodeobj.interfaces.length + 1) := by
  rw [addLinkCore_eq]
  have he2 : (topoAddInterface t n1 mac1).2.edges = t.edges := topoAddInterface_edges t n1 mac1
  have he3 : (topoAddInterface (topoAddInterface t n1 mac1).2 n2 mac2).2.edges = t.edges := by
    rw [topoAddInterface_edges, he2]
  have hedge3 : edgeBetween (topoAddInterface (topoAddInterface t n1 mac1).2 n2 mac2).2 n1 n2 =
      some e := by
    rw [edgeBetween_edges_eq he3, hedge]
  rw [ensureEdge_of_some _ n1 n2 e hedge3]
  refine ⟨?_, ?_, ?_, ?_⟩
  · show (setEdgeData _ n1 n2 _ _ _ _ _).edges.length = t.edges.length
    unfold setEdgeData
    simp [he3]
  · rw [edgeBetween_setEdgeData, hedge3]
    have hedge' : t.edges.find? (fun x => edgeMatches x n1 n2) = some e := hedge
    have hm : edgeMatches e n1 n2 = true := by
      have hres := List.find?_some hedge'
      simpa using hres
    have hif1 : (topoAddInterface t n1 mac1).1 = "eth" ++ natToStr ne1.nodeobj.ifnum :=
      (findNode_topoAdd_self t n1 mac1 ne1 hf1).1
    have hf2' : findNode (topoAddInterface t n1 mac1).2 n2 = some ne2 := by
      rw [findNode_topoAdd_ne t n1 mac1 n2 (fun hx => hne hx.symm), hf2]
    have hif2 : (topoAddInterface (topoAddInterface t n1 mac1).2 n2 mac2).1
        = "eth" ++ natToStr ne2.nodeobj.ifnum :=
      (findNode_topoAdd_self _ n2 mac2 ne2 hf2').1
    refine ⟨_, rfl, ?_⟩
    simp only [hm, if_true]
    refine ⟨trivial, trivial, trivial, ?_, ?_⟩
    · rw [dictGet_set_ne _ _ _ _ hne, dictGet_set_self, hif1]
    · rw [dictGet_set_self, hif2]
  · rw [findNode_nodes_eq (setEdgeData_nodes _ n1 n2 _ _ _ _ _) n1,
      findNode_topoAdd_ne _ n2 mac2 n1 hne]
    obtain ⟨-, hfn⟩ := findNode_topoAdd_self t n1 mac1 ne1 hf1
    rw [hfn]
    show some ((nodeAddInterface ne1.nodeobj mac1 none none).2.interfaces.length) = _
    show some ((dictSet ne1.nodeobj.interfaces _ _).length) = _
    rw [dictSet_fresh _ _ _ (nodeWF_fresh ne1.nodeobj hw1)]
    simp
  · rw [findNode_nodes_eq (setEdgeData_nodes _ n1 n2 _ _ _ _ _) n2]
    have hf2' : findNode (topoAddInterface t n1 mac1).2 n2 = some ne2 := by
      rw [findNode_topoAdd_ne t n1 mac1 n2 (fun hx => hne hx.symm), hf2]
    obtain ⟨-, hfn⟩ := findNode_topoAdd_self _ n2 mac2 ne2 hf2'
    rw [hfn]
    show some ((nodeAddInterface ne2.nodeobj mac2 none none).2.interfaces.length) = _
    show some ((dictSet ne2.nodeobj.interfaces _ _).length) = _
    rw [dictSet_fresh _ _ _ (nodeWF_fresh ne2.nodeobj hw2)]
    simp

/-- C2 counterexample: tEx already has a link h0–s0, yet a second addLink
for the same pair returns successfully — there is no duplicate-link check
anywhere in addLink, so no DuplicateLinkError can be raised. -/
theorem C2_counterexample :
    (edgeBetween tEx "h0" "s0").isSome = true ∧
    (addLink tEx "h0" "s0" "100mbps" "10ms").1 = .ok () := by
  refine ⟨by decide, by decide⟩

/-- C2 amended: a second addLink on a pair that already has a link does not
fail. It returns successfully, keeps the number of links unchanged (the
graph stays simple), overwrites the existing link's label, capacity and
delay attributes with the newly computed values, repoints the link's two
endpoint-interface entries at the newly created interfaces (the auto name
eth<k> from each endpoint's pre-call counter), and creates one additional
interface on each endpoint. -/
theorem C2_amended_second_addLink (t : Topology) (n1 n2 c d : String)
    (h1 : n1 ∈ nodeNames t) (h2 : n2 ∈ nodeNames t) (hne : n1 ≠ n2)
    (hwfn : ∀ ne ∈ t.nodes, NodeWF ne.nodeobj)
    (e : Edge) (hedge : edgeBetween t n1 n2 = some e) :
    (addLink t n1 n2 c d).1 = .ok () ∧
    (addLink t n1 n2 c d).2.edges.length = t.edges.length ∧
    (∃ e', edgeBetween (addLink t n1 n2 c d).2 n1 n2 = some e' ∧
      e'.label = humanize_capacity (unhumanize_capacity c) ++ " " ++
        humanize_delay (unhumanize_delay d) ∧
      e'.capacity = unhumanize_capacity c ∧ e'.delay = unhumanize_delay d ∧
      dictGet e'.ifmap n1 =
        (findNode t n1).map (fun ne => "eth" ++ natToStr ne.nodeobj.ifnum) ∧
      dictGet e'.ifmap n2 =
        (findNode t n2).map (fun ne => "eth" ++ natToStr ne.nodeobj.ifnum)) ∧
    (findNode (addLink t n1 n2 c d).2 n1).map (fun ne => ne.nodeobj.interfaces.length) =
      (findNode t n1).map (fun ne => ne.nodeobj.interfaces.length + 1) ∧
    (findNode (addLink t n1 n2 c d).2 n2).map (fun ne => ne.nodeobj.interfaces.length) =
      (findNode t n2).map (fun ne => ne.nodeobj.interfaces.length + 1) := by
  obtain ⟨ne1, hf1⟩ := Option.isSome_iff_exists.mp (findNode_isSome_of_mem h1)
  obtain ⟨ne2, hf2⟩ := Option.isSome_iff_exists.mp (findNode_isSome_of_mem h2)
  have hw1 : NodeWF ne1.nodeobj := hwfn ne1 (findNode_mem hf1)
  have hw2 : NodeWF ne2.nodeobj := hwfn ne2 (findNode_mem hf2)
  unfold addLink
  rw [if_neg (not_not_intro h1), if_neg (not_not_intro h2)]
  by_cases ha : t.auto_macs = true
  · rw [if_pos ha]
    have hspec := addLinkCore_spec { t with ifnum := t.ifnum + 2 } n1 n2
      (some (macFormat t.ifnum)) (some (macFormat (t.ifnum + 1))) c d hne
      ne1 hf1 hw1 ne2 hf2 hw2 e hedge
    obtain ⟨hlen, ⟨e', he', hl, hcap, hdly, hm1, hm2⟩, hc1, hc2⟩ := hspec
    refine ⟨rfl, hlen, ⟨e', he', hl, hcap, hdly, ?_, ?_⟩, ?_, ?_⟩
    · rw [hf1]
      exact hm1
    · rw [hf2]
      exact hm2
    · rw [hf1]
      exact hc1
    · rw [hf2]
      exact hc2
  · rw [if_neg ha]
    have hspec := addLinkCore_spec t n1 n2 none none c d hne
      ne1 hf1 hw1 ne2 hf2 hw2 e hedge
    obtain ⟨hlen, ⟨e', he', hl, hcap, hdly, hm1, hm2⟩, hc1, hc2⟩ := hspec
    refine ⟨rfl, hlen, ⟨e', he', hl, hcap, hdly, ?_, ?_⟩, ?_, ?_⟩
    · rw [hf1]
      exact hm1
    · rw [hf2]
      exact hm2
    · rw [hf1]
      exact hc1
    · rw [hf2]
      exact hc2

theorem C2_amended_witness :
    ∃ e, edgeBetween tEx "h0" "s0" = some e ∧
      (addLink tEx "h0" "s0" "1gbps" "5ms").1 = .ok () ∧
      (addLink tEx "h0" "s0" "1gbps" "5ms").2.edges.length = tEx.edges.length ∧
      (∃ e', edgeBetween (addLink tEx "h0" "s0" "1gbps" "5ms").2 "h0" "s0" = some e' ∧
        e'.label = humanize_capacity (unhumanize_capacity "1gbps") ++ " " ++
          humanize_delay (unhumanize_delay "5ms") ∧
        e'.capacity = unhumanize_capacity "1gbps" ∧ e'.delay = unhumanize_delay "5ms" ∧
        dictGet e'.ifmap "h0" =
          (findNode tEx "h0").map (fun ne => "eth" ++ natToStr ne.nodeobj.ifnum) ∧
        dictGet e'.ifmap "s0" =
          (findNode tEx "s0").map (fun ne => "eth" ++ natToStr ne.nodeobj.ifnum)) := by
  cases he : edgeBetween tEx "h0" "s0" with
  | none =>
    have : (edgeBetween tEx "h0" "s0").isSome = true := by decide
    rw [he] at this
    simp at this
  | some e =>
    obtain ⟨ha, hb, hc, -, -⟩ := C2_amended_second_addLink tEx "h0" "s0" "1gbps" "5ms"
      (by decide) (by decide) (by decide) (by decide) e he
    exact ⟨e, rfl, ha, hb, hc⟩

theorem getIf_setIfIpMask_isSome (t : Topology) (node ifn : String) (ip mask : Nat)
    (m i : String) :
    (getIf (setIfIpMask t node ifn ip mask) m i).isSome = (getIf t m i).isSome := by
  rw [getIf_setIfIpMask]
  cases getIf t m i <;> simp

theorem resolvable_setIfIpMask {t : Topology} {tgts : List (String × Option String)}
    {node ifn : String} {ip mask : Nat} (h : resolvable t tgts) :
    resolvable (setIfIpMask t node ifn ip mask) tgts := by
  intro p hp
  obtain ⟨i, h1, h2⟩ := h p hp
  exact ⟨i, h1, by rw [getIf_setIfIpMask_isSome]; exact h2⟩

theorem findNode_setIfIpMask_ne (t : Topology) (node ifn : String) (ip mask : Nat)
    (m : String) (hm : m ≠ node) :
    findNode (setIfIpMask t node ifn ip mask) m = findNode t m := by
  unfold setIfIpMask
  rw [findNode_overNode]
  cases hfm : findNode t m
  · rfl
  · rename_i ne'
    have hn : ne'.name = m := findNode_name hfm
    simp [hn, hm]

theorem assignGo_exhaust (hostsL : List Nat) (mask : Nat) :
    ∀ (tgts : List (String × Option String)) (idx : Nat) (t : Topology),
      resolvable t tgts → idx ≤ hostsL.length → hostsL.length < idx + tgts.length →
      (assignGo hostsL mask tgts idx t).1 = .error .addressSpaceExhausted := by
  intro tgts
  induction tgts with
  | nil =>
    intro idx t _ hle hlt
    simp at hlt
    omega
  | cons p rest ih =>
    intro idx t hres hle hlt
    obtain ⟨n, po⟩ := p
    obtain ⟨ifn, hpo, hgi⟩ := hres (n, po) (by simp)
    simp only at hpo
    subst hpo
    rw [Option.isSome_iff_exists] at hgi
    obtain ⟨ifc, hgi⟩ := hgi
    unfold assignGo
    rw [hgi]
    by_cases hidx : idx < hostsL.length
    · rw [List.getElem?_eq_getElem hidx]
      apply ih (idx + 1) _ _ (by omega) (by simp at hlt ⊢; omega)
      exact resolvable_setIfIpMask (fun q hq => hres q (by simp [hq]))
    · rw [List.getElem?_eq_none (by omega)]

theorem assignGo_ok (hostsL : List Nat) (mask : Nat) :
    ∀ (tgts : List (String × Option String)) (idx : Nat) (t : Topology),
      resolvable t tgts → idx + tgts.length ≤ hostsL.length →
      (assignGo hostsL mask tgts idx t).1 = .ok () := by
  intro tgts
  induction tgts with
  | nil => intro idx t _ _; rfl
  | cons p rest ih =>
    intro idx t hres hle
    obtain ⟨n, po⟩ := p
    obtain ⟨ifn, hpo, hgi⟩ := hres (n, po) (by simp)
    simp only at hpo
    subst hpo
    rw [Option.isSome_iff_exists] at hgi
    obtain ⟨ifc, hgi⟩ := hgi
    unfold assignGo
    rw [hgi]
    have hidx : idx < hostsL.length := by simp at hle; omega
    rw [List.getElem?_eq_getElem hidx]
    apply ih (idx + 1) _ _ (by simp at hle ⊢; omega)
    exact resolvable_setIfIpMask (fun q hq => hres q (by simp [hq]))

theorem assignGo_pres (hostsL : List Nat) (mask : Nat) :
    ∀ (tgts : List (String × Option String)) (idx : Nat) (t : Topology) (n m : String),
      (∀ p ∈ tgts, ¬(p.1 = n ∧ p.2 = some m)) →
      getIf (assignGo hostsL mask tgts idx t).2 n m = getIf t n m := by
  intro tgts
  induction tgts with
  | nil => intro idx t n m _; rfl
  | cons p rest ih =>
    intro idx t n m hno
    obtain ⟨n', po⟩ := p
    cases po with
    | none => rfl
    | some ifn =>
      simp only [assignGo]
      cases hgi : getIf t n' ifn with
      | none => rfl
      | some ifc =>
        cases hidx : hostsL[idx]? with
        | none => rfl
        | some ip =>
          rw [ih (idx + 1) _ n m (fun q hq => hno q (by simp [hq]))]
          rw [getIf_setIfIpMask]
          have hcond : ¬(n = n' ∧ m = ifn) := by
            intro ⟨ha, hb⟩
            exact hno (n', some ifn) (by simp) ⟨ha.symm, by rw [hb]⟩
          cases getIf t n m with
          | none => rfl
          | some v => simp [hcond]

theorem assignGo_findNode_pres (hostsL : List Nat) (mask : Nat) :
    ∀ (tgts : List (String × Option String)) (idx : Nat) (t : Topology) (m : String),
      (∀ p ∈ tgts, p.1 ≠ m) →
      findNode (assignGo hostsL mask tgts idx t).2 m = findNode t m := by
  intro tgts
  induction tgts with
  | nil => intro idx t m _; rfl
  | cons p rest ih =>
    intro idx t m hno
    obtain ⟨n', po⟩ := p
    cases po with
    | none => rfl
    | some ifn =>
      simp only [assignGo]
      cases hgi : getIf t n' ifn with
      | none => rfl
      | some ifc =>
        cases hidx : hostsL[idx]? with
        | none => rfl
        | some ip =>
          rw [ih (idx + 1) _ m (fun q hq => hno q (by simp [hq]))]
          exact findNode_setIfIpMask_ne t n' ifn ip mask m
            (fun hx => hno (n', some ifn) (by simp) hx.symm)

theorem assignGo_get (hostsL : List Nat) (mask : Nat) :
    ∀ (tgts : List (String × Option String)) (idx : Nat) (t : Topology),
      resolvable t tgts → idx + tgts.length ≤ hostsL.length → tgts.Nodup →
      ∀ j, ∀ hj : j < tgts.length, ∀ ifn : String, (tgts[j]).2 = some ifn →
      ∃ ip ifc, hostsL[idx + j]? = some ip ∧
        getIf (assignGo hostsL mask tgts idx t).2 (tgts[j]).1 ifn = some ifc ∧
        ifc.ipaddr = ip ∧ ifc.netmask = mask := by
  intro tgts
  induction tgts with
  | nil =>
    intro idx t _ _ _ j hj
    simp at hj
  | cons p rest ih =>
    intro idx t hres hle hnd j hj ifn hifn
    obtain ⟨n', po⟩ := p
    obtain ⟨ifn0, hpo, hgi0⟩ := hres (n', po) (by simp)
    simp only at hpo
    subst hpo
    rw [Option.isSome_iff_exists] at hgi0
    obtain ⟨ifc0, hgi0⟩ := hgi0
    have hgi0' : getIf t n' ifn0 = some ifc0 := hgi0
    have hidx : idx < hostsL.length := by simp at hle; omega
    simp only [assignGo, hgi0', List.getElem?_eq_getElem hidx]
    cases j with
    | zero =>
      have hifn0 : ifn = ifn0 := by
        simp at hifn
        exact hifn.symm
      subst hifn0
      have hnotin : ∀ q ∈ rest, ¬(q.1 = n' ∧ q.2 = some ifn) := by
        intro q hq hqc
        have hqe : q = (n', some ifn) := by
          obtain ⟨q1, q2⟩ := q
          simp only at hqc
          rw [hqc.1, hqc.2]
        rw [hqe] at hq
        exact (List.nodup_cons.mp hnd).1 hq
      simp only [List.getElem_cons_zero]
      rw [assignGo_pres hostsL mask rest (idx + 1) _ n' ifn hnotin]
      rw [getIf_setIfIpMask, hgi0']
      refine ⟨hostsL[idx], { ifc0 with ipaddr := hostsL[idx], netmask := mask }, ?_, ?_, rfl, rfl⟩
      · rw [Nat.add_zero, List.getElem?_eq_getElem hidx]
      · simp
    | succ j' =>
      have hj' : j' < rest.length := by simp at hj; omega
      have harith : idx + (j' + 1) = (idx + 1) + j' := by omega
      rw [harith]
      have hres' : resolvable (setIfIpMask t n' ifn0 hostsL[idx] mask) rest :=
        resolvable_setIfIpMask (fun q hq => hres q (by simp [hq]))
      have hmem : ((n', some ifn0) :: rest)[j' + 1] = rest[j'] := by
        simp
      rw [hmem] at hifn ⊢
      exact ih (idx + 1) _ hres' (by simp at hle ⊢; omega)
        (List.nodup_cons.mp hnd).2 j' hj' ifn hifn

theorem resolvable_of_WFT (t : Topology) (hwf : WFT t) : resolvable t (assignTargets t) := by
  intro p hp
  unfold assignTargets at hp
  rw [List.mem_flatMap] at hp
  obtain ⟨pr, hpr, hmem⟩ := hp
  cases he : edgeBetween t pr.1 pr.2 with
  | none =>
    rw [he] at hmem
    cases hmem
  | some e =>
    rw [he] at hmem
    rw [List.mem_map] at hmem
    obtain ⟨n, hn, rfl⟩ := hmem
    have hmem2 : n ∈ [pr.1, pr.2] := List.mem_of_mem_filter hn
    have hee : e ∈ t.edges := List.mem_of_find?_eq_some he
    have hm : edgeMatches e pr.1 pr.2 = true := by
      have hres := List.find?_some
        (show t.edges.find? (fun x => edgeMatches x pr.1 pr.2) = some e from he)
      simpa using hres
    unfold edgeMatches at hm
    simp only [Bool.or_eq_true, Bool.and_eq_true, beq_iff_eq] at hm
    have hcl := hwf.2 e hee
    have hn_cases : n = e.u ∨ n = e.v := by
      simp only [List.mem_cons, List.mem_singleton, List.not_mem_nil, or_false] at hmem2
      rcases hm with ⟨hu, hv⟩ | ⟨hu, hv⟩ <;> rcases hmem2 with rfl | rfl <;>
        simp [hu, hv]
    rcases hn_cases with rfl | rfl
    · have hb := hcl.2.2.1
      cases hd : dictGet e.ifmap e.u with
      | none => rw [hd] at hb; simp at hb
      | some i =>
        rw [hd] at hb
        simp at hb
        exact ⟨i, by simp [hd], hb⟩
    · have hb := hcl.2.2.2
      cases hd : dictGet e.ifmap e.v with
      | none => rw [hd] at hb; simp at hb
      | some i =>
        rw [hd] at hb
        simp at hb
        exact ⟨i, by simp [hd], hb⟩

/-- C8: assignIPAddresses fails (with the exhaustion error, the
StopIteration of the exhausted host generator) whenever the chosen subnet
offers fewer usable host addresses than there are Host/Router
link-endpoint interfaces to number. -/
theorem C8_address_space_exhausted (t : Topology) (pfx : Option String) (net : IPv4Net)
    (hwf : WFT t) (hnet : netOfPfx pfx = some net)
    (hlt : (subnetHosts net).length < (assignTargets t).length) :
    (assignIPAddresses t pfx).1 = .error .addressSpaceExhausted := by
  unfold assignIPAddresses
  rw [hnet]
  exact assignGo_exhaust (subnetHosts net) (maskOfPlen net.plen) (assignTargets t) 0 t
    (resolvable_of_WFT t hwf) (by omega) (by omega)

theorem C8_witness :
    WFT tStar ∧
    netOfPfx (some "192.168.1.0/30") = some { base := 3232235776, plen := 30 } ∧
    (subnetHosts { base := 3232235776, plen := 30 }).length < (assignTargets tStar).length ∧
    (assignIPAddresses tStar (some "192.168.1.0/30")).1 = .error .addressSpaceExhausted := by
  refine ⟨by decide, by decide, by decide, ?_⟩
  exact C8_address_space_exhausted tStar (some "192.168.1.0/30")
    { base := 3232235776, plen := 30 } (by decide) (by decide) (by decide)

theorem char_toNat_inj {a b : Char} (h : a.toNat = b.toNat) : a = b := by
  apply Char.eq_of_val_eq
  unfold Char.toNat at h
  exact UInt32.ext h

theorem string_data_inj {a b : String} (h : a.data = b.data) : a = b := by
  cases a
  cases b
  simp only at h
  rw [h]

theorem strLt_irrefl : ∀ as, strLt as as = false
  | [] => rfl
  | a :: as => by
    show (if a.toNat < a.toNat then true
      else if a.toNat = a.toNat then strLt as as else false) = false
    rw [if_neg (lt_irrefl a.toNat), if_pos rfl]
    exact strLt_irrefl as

theorem strLt_trans : ∀ as bs cs, strLt as bs = true → strLt bs cs = true →
    strLt as cs = true := by
  intro as
  induction as with
  | nil =>
    intro bs cs hab hbc
    cases bs with
    | nil => cases hab
    | cons b bs' =>
      cases cs with
      | nil => cases hbc
      | cons c cs' => rfl
  | cons a as ih =>
    intro bs cs hab hbc
    cases bs with
    | nil => cases hab
    | cons b bs' =>
      cases cs with
      | nil => cases hbc
      | cons c cs' =>
        simp only [strLt] at hab hbc ⊢
        by_cases h1 : a.toNat < b.toNat
        · by_cases h2 : b.toNat < c.toNat
          · rw [if_pos (show a.toNat < c.toNat by omega)]
          · by_cases h3 : b.toNat = c.toNat
            · rw [if_pos (show a.toNat < c.toNat by omega)]
            · rw [if_neg h2, if_neg h3] at hbc
              cases hbc
        · by_cases h1' : a.toNat = b.toNat
          · rw [if_neg h1, if_pos h1'] at hab
            by_cases h2 : b.toNat < c.toNat
            · rw [if_pos (show a.toNat < c.toNat by omega)]
            · by_cases h3 : b.toNat = c.toNat
              · rw [if_neg h2, if_pos h3] at hbc
                rw [if_neg (show ¬a.toNat < c.toNat by omega),
                  if_pos (show a.toNat = c.toNat by omega)]
                exact ih bs' cs' hab hbc
              · rw [if_neg h2, if_neg h3] at hbc
                cases hbc
          · rw [if_neg h1, if_neg h1'] at hab
            cases hab

theorem strLt_total : ∀ as bs, as = bs ∨ strLt as bs = true ∨ strLt bs as = true := by
  intro as
  induction as with
  | nil =>
    intro bs
    cases bs with
    | nil => exact Or.inl rfl
    | cons b bs' => exact Or.inr (Or.inl rfl)
  | cons a as ih =>
    intro bs
    cases bs with
    | nil => exact Or.inr (Or.inr rfl)
    | cons b bs' =>
      by_cases h1 : a.toNat < b.toNat
      · refine Or.inr (Or.inl ?_)
        simp only [strLt]
        rw [if_pos h1]
      · by_cases h2 : a.toNat = b.toNat
        · have hab : a = b := char_toNat_inj h2
          subst hab
          rcases ih bs' with heq | hlt | hgt
          · exact Or.inl (by rw [heq])
          · refine Or.inr (Or.inl ?_)
            simp [strLt, h1, hlt]
          · refine Or.inr (Or.inr ?_)
            simp [strLt, h1, hgt]
        · refine Or.inr (Or.inr ?_)
          simp only [strLt]
          rw [if_pos (show b.toNat < a.toNat by omega)]

theorem pyStrLt_trans {a b c : String} (hab : pyStrLt a b = true) (hbc : pyStrLt b c = true) :
    pyStrLt a c = true :=
  strLt_trans a.data b.data c.data hab hbc

theorem pyStrLt_total (a b : String) : a = b ∨ pyStrLt a b = true ∨ pyStrLt b a = true := by
  rcases strLt_total a.data b.data with heq | h | h
  · exact Or.inl (string_data_inj heq)
  · exact Or.inr (Or.inl h)
  · exact Or.inr (Or.inr h)

theorem pyStrLt_asymm {a b : String} (hab : pyStrLt a b = true) (hba : pyStrLt b a = true) :
    False := by
  have := pyStrLt_trans hab hba
  unfold pyStrLt at this
  rw [strLt_irrefl] at this
  cases this

theorem pairLE_trans : ∀ a b c, pairLE a b = true → pairLE b c = true →
    pairLE a c = true := by
  intro a b c hab hbc
  unfold pairLE at hab hbc ⊢
  by_cases e1 : a.1 = b.1
  · by_cases e2 : b.1 = c.1
    · rw [if_pos e1] at hab
      rw [if_pos e2] at hbc
      rw [if_pos (e1.trans e2)]
      rw [Bool.or_eq_true, beq_iff_eq] at hab hbc ⊢
      rcases hab with hab | hab <;> rcases hbc with hbc | hbc
      · exact Or.inl (hab.trans hbc)
      · exact Or.inr (hab ▸ hbc)
      · exact Or.inr (hbc ▸ hab)
      · exact Or.inr (pyStrLt_trans hab hbc)
    · rw [if_pos e1] at hab
      rw [if_neg e2] at hbc
      rw [if_neg (fun h => e2 (e1 ▸ h))]
      rw [e1]
      exact hbc
  · by_cases e2 : b.1 = c.1
    · rw [if_neg e1] at hab
      rw [if_neg (fun h => e1 (h.trans e2.symm))]
      rw [← e2]
      exact hab
    · rw [if_neg e1] at hab
      rw [if_neg e2] at hbc
      by_cases e3 : a.1 = c.1
      · exfalso
        exact pyStrLt_asymm hab (e3 ▸ hbc)
      · rw [if_neg e3]
        exact pyStrLt_trans hab hbc

theorem pairLE_total : ∀ a b, (pairLE a b || pairLE b a) = true := by
  intro a b
  unfold pairLE
  by_cases e : a.1 = b.1
  · rw [if_pos e, if_pos e.symm]
    rcases pyStrLt_total a.2 b.2 with heq | h | h
    · simp [heq]
    · simp [h]
    · simp [h]
  · rw [if_neg e, if_neg (fun h => e h.symm)]
    rcases pyStrLt_total a.1 b.1 with heq | h | h
    · exact absurd heq e
    · simp [h]
    · simp [h]

theorem insertLE_perm (x : String × String) :
    ∀ l, (insertLE x l).Perm (x :: l) := by
  intro l
  induction l with
  | nil => exact List.Perm.refl _
  | cons y rest ih =>
    unfold insertLE
    by_cases h : pairLE x y = true
    · rw [if_pos h]
    · rw [if_neg h]
      exact (ih.cons y).trans (List.Perm.swap x y rest)

theorem insertLE_sorted (x : String × String) :
    ∀ l, l.Pairwise (fun a b => pairLE a b = true) →
      (insertLE x l).Pairwise (fun a b => pairLE a b = true) := by
  intro l
  induction l with
  | nil => intro _; simp [insertLE]
  | cons y rest ih =>
    intro hs
    rw [List.pairwise_cons] at hs
    unfold insertLE
    by_cases h : pairLE x y = true
    · rw [if_pos h]
      rw [List.pairwise_cons]
      refine ⟨?_, List.pairwise_cons.mpr hs⟩
      intro z hz
      rcases List.mem_cons.mp hz with rfl | hz'
      · exact h
      · exact pairLE_trans x y z h (hs.1 z hz')
    · rw [if_neg h]
      have hyx : pairLE y x = true := by
        have := pairLE_total x y
        rw [Bool.or_eq_true] at this
        rcases this with h' | h'
        · exact absurd h' h
        · exact h'
      rw [List.pairwise_cons]
      refine ⟨?_, ih hs.2⟩
      intro z hz
      have hz' : z ∈ x :: rest := (insertLE_perm x rest).mem_iff.mp hz
      rcases List.mem_cons.mp hz' with rfl | hz''
      · exact hyx
      · exact hs.1 z hz''

theorem sortPairs_sorted : ∀ l, (sortPairs l).Pairwise (fun a b => pairLE a b = true) := by
  intro l
  induction l with
  | nil => simp [sortPairs]
  | cons x rest ih => exact insertLE_sorted x (sortPairs rest) ih

theorem assignTargets_mem_ntn (t : Topology) :
    ∀ p ∈ assignTargets t, p.1 ∈ nodesToNumber t := by
  intro p hp
  unfold assignTargets at hp
  rw [List.mem_flatMap] at hp
  obtain ⟨pr, hpr, hmem⟩ := hp
  cases he : edgeBetween t pr.1 pr.2 with
  | none =>
    rw [he] at hmem
    cases hmem
  | some e =>
    rw [he] at hmem
    rw [List.mem_map] at hmem
    obtain ⟨n, hn, rfl⟩ := hmem
    have := List.of_mem_filter hn
    simpa using this

theorem find_name_nodup : ∀ (l : List NodeEntry),
    (l.map (fun ne => ne.name)).Nodup →
    ∀ ne ∈ l, l.find? (fun x => x.name == ne.name) = some ne := by
  intro l
  induction l with
  | nil =>
    intro _ ne h
    cases h
  | cons hd rest ih =>
    intro hnd ne hm
    rcases List.mem_cons.mp hm with rfl | hm'
    · exact List.find?_cons_of_pos rest (by simp)
    · have hne : ¬(hd.name == ne.name) = true := by
        simp only [beq_iff_eq]
        intro heq
        rw [List.map_cons, List.nodup_cons] at hnd
        exact hnd.1 (heq ▸ List.mem_map_of_mem (fun x => x.name) hm')
      rw [List.find?_cons_of_neg rest hne]
      rw [List.map_cons, List.nodup_cons] at hnd
      exact ih hnd.2 ne hm'

theorem findNode_self (t : Topology) (hnd : (nodeNames t).Nodup) (ne : NodeEntry)
    (hm : ne ∈ t.nodes) : findNode t ne.name = some ne :=
  find_name_nodup t.nodes hnd ne hm

theorem switch_not_target (t : Topology) (hnd : (nodeNames t).Nodup) (ne : NodeEntry)
    (hm : ne ∈ t.nodes) (hty : ne.type = "Switch") : ne.name ∉ nodesToNumber t := by
  intro hmem
  unfold nodesToNumber typeNames at hmem
  rw [List.mem_append] at hmem
  rcases hmem with hmem | hmem
  · rw [List.mem_filterMap] at hmem
    obtain ⟨ne', hne', hcond⟩ := hmem
    by_cases hct : ne'.type = "Host"
    · rw [if_pos hct] at hcond
      have hname := Option.some.inj hcond
      have heqn : ne' = ne := List.inj_on_of_nodup_map hnd hne' hm hname
      rw [heqn, hty] at hct
      exact absurd hct (by decide)
    · rw [if_neg hct] at hcond
      cases hcond
  · rw [List.mem_filterMap] at hmem
    obtain ⟨ne', hne', hcond⟩ := hmem
    by_cases hct : ne'.type = "Router"
    · rw [if_pos hct] at hcond
      have hname := Option.some.inj hcond
      have heqn : ne' = ne := List.inj_on_of_nodup_map hnd hne' hm hname
      rw [heqn, hty] at hct
      exact absurd hct (by decide)
    · rw [if_neg hct] at hcond
      cases hcond

theorem subnetHosts_mono (net : IPv4Net) :
    ∀ i j, ∀ hi : i < (subnetHosts net).length, ∀ hj : j < (subnetHosts net).length,
      i < j → (subnetHosts net)[i] < (subnetHosts net)[j] := by
  intro i j hi hj hij
  unfold subnetHosts at hi hj ⊢
  by_cases h30 : net.plen ≤ 30
  · simp only [h30, ite_true] at hi hj ⊢
    rw [List.getElem_map, List.getElem_map, List.getElem_range, List.getElem_range]
    omega
  · by_cases h31 : net.plen = 31
    · simp only [h30, h31, ite_false, ite_true] at hi hj ⊢
      have hj2 : j < 2 := hj
      have hj1 : j = 1 := by omega
      have hi0 : i = 0 := by omega
      subst hj1
      subst hi0
      simp
    · simp only [h30, h31, ite_false] at hi hj ⊢
      have hj2 : j < 1 := hj
      omega

/-- C4: on every well-formed topology whose traversal targets are distinct
(as the construction API guarantees), a successful assignIPAddresses walk
visits the links in ascending sorted pair order, touches only interfaces
of Host/Router nodes (never a Switch, whose node object is left exactly as
it was), and gives the j-th visited link-endpoint interface the j-th
usable host address of the chosen subnet (default 10.0.0.0/8), a strictly
increasing sequence, together with the subnet netmask. -/
theorem C4_assignIPAddresses_order (t : Topology) (pfx : Option String) (net : IPv4Net)
    (hwf : WFT t) (hnd : (assignTargets t).Nodup) (hnet : netOfPfx pfx = some net)
    (hok : (assignIPAddresses t pfx).1 = .ok ()) :
    (sortedLinks t).Pairwise (fun a b => pairLE a b = true) ∧
    (∀ p ∈ assignTargets t, p.1 ∈ nodesToNumber t) ∧
    (∀ i j, ∀ hi : i < (subnetHosts net).length, ∀ hj : j < (subnetHosts net).length,
      i < j → (subnetHosts net)[i] < (subnetHosts net)[j]) ∧
    (∀ j, ∀ hj : j < (assignTargets t).length, ∃ ifn ip ifc,
      ((assignTargets t)[j]).2 = some ifn ∧
      (subnetHosts net)[j]? = some ip ∧
      getIf (assignIPAddresses t pfx).2 ((assignTargets t)[j]).1 ifn = some ifc ∧
      ifc.ipaddr = ip ∧ ifc.netmask = maskOfPlen net.plen) ∧
    (∀ ne ∈ t.nodes, ne.type = "Switch" →
      findNode (assignIPAddresses t pfx).2 ne.name = some ne) := by
  have hres := resolvable_of_WFT t hwf
  have heq : assignIPAddresses t pfx =
      assignGo (subnetHosts net) (maskOfPlen net.plen) (assignTargets t) 0 t := by
    unfold assignIPAddresses
    rw [hnet]
  have hbound : (assignTargets t).length ≤ (subnetHosts net).length := by
    by_contra hlt
    push_neg at hlt
    have hexh := assignGo_exhaust (subnetHosts net) (maskOfPlen net.plen) (assignTargets t)
      0 t hres (by omega) (by omega)
    rw [heq, hexh] at hok
    cases hok
  refine ⟨sortPairs_sorted (links t), assignTargets_mem_ntn t, subnetHosts_mono net, ?_, ?_⟩
  · intro j hj
    obtain ⟨ifn, hifn, -⟩ := hres ((assignTargets t)[j]) (List.getElem_mem hj)
    obtain ⟨ip, ifc, hip, hgi, hipf, hmf⟩ := assignGo_get (subnetHosts net)
      (maskOfPlen net.plen) (assignTargets t) 0 t hres (by omega) hnd j hj ifn hifn
    refine ⟨ifn, ip, ifc, hifn, by simpa using hip, ?_, hipf, hmf⟩
    rw [heq]
    exact hgi
  · intro ne hm hty
    have hnn : ∀ p ∈ assignTargets t, p.1 ≠ ne.name := by
      intro p hp hpe
      exact switch_not_target t hwf.1 ne hm hty (hpe ▸ assignTargets_mem_ntn t p hp)
    rw [heq]
    rw [assignGo_findNode_pres _ _ _ _ _ _ hnn]
    exact findNode_self t hwf.1 ne hm

set_option maxRecDepth 100000 in
theorem C4_witness :
    WFT tStar ∧ (assignTargets tStar).Nodup ∧
    netOfPfx (some "192.168.1.0/24") = some { base := 3232235776, plen := 24 } ∧
    (assignIPAddresses tStar (some "192.168.1.0/24")).1 = .ok () ∧
    (∀ p ∈ assignTargets tStar, p.1 ∈ nodesToNumber tStar) := by
  refine ⟨by decide, by decide, by decide, by decide, ?_⟩
  have h := C4_assignIPAddresses_order tStar (some "192.168.1.0/24")
    { base := 3232235776, plen := 24 } (by decide) (by decide) (by decide) (by decide)
  exact h.2.1

theorem macsOfNO_nodeAdd (no : NodeObj) (eth : Option String) (hwf : NodeWF no) :
    macsOfNO (nodeAddInterface no eth none none).2 =
      macsOfNO no ++ [eth.getD "00:00:00:00:00:00"] := by
  have heq : (nodeAddInterface no eth none none).2.interfaces
      = no.interfaces ++ [("eth" ++ natToStr no.ifnum,
        mkInterface ("eth" ++ natToStr no.ifnum) eth none none)] :=
    dictSet_fresh _ _ _ (nodeWF_fresh no hwf)
  unfold macsOfNO
  rw [heq]
  simp [mkInterface]

theorem nodeWF_nodeAdd (no : NodeObj) (eth : Option String) (h : NodeWF no) :
    NodeWF (nodeAddInterface no eth none none).2 := by
  constructor
  · show ((dictSet no.interfaces _ _).map (fun p => p.1)).Nodup
    rw [dictSet_fresh _ _ _ (nodeWF_fresh no h), List.map_append]
    rw [List.nodup_append]
    refine ⟨h.1, by simp, ?_⟩
    intro x hx
    simp only [List.map_cons, List.map_nil, List.mem_singleton]
    intro hx2
    rw [hx2] at hx
    exact nodeWF_fresh no h hx
  · intro p hp
    show ∃ k ∈ List.range (no.ifnum + 1), p.1 = "eth" ++ natToStr k
    have hp2 : p ∈ no.interfaces ++ [("eth" ++ natToStr no.ifnum,
        mkInterface ("eth" ++ natToStr no.ifnum) eth none none)] := by
      rw [← dictSet_fresh _ _ _ (nodeWF_fresh no h)]
      exact hp
    rw [List.mem_append] at hp2
    rcases hp2 with hp2 | hp2
    · obtain ⟨k, hk, hkeq⟩ := h.2 p hp2
      rw [List.mem_range] at hk
      exact ⟨k, List.mem_range.mpr (by omega), hkeq⟩
    · rw [List.mem_singleton] at hp2
      rw [hp2]
      exact ⟨no.ifnum, List.mem_range.mpr (by omega), rfl⟩

theorem nodeWF_all_topoAdd (t : Topology) (n : String) (eth : Option String)
    (hnd : (nodeNames t).Nodup) (h : ∀ ne ∈ t.nodes, NodeWF ne.nodeobj) :
    ∀ ne ∈ (topoAddInterface t n eth).2.nodes, NodeWF ne.nodeobj := by
  unfold topoAddInterface
  cases hf : findNode t n with
  | none => exact h
  | some ne0 =>
    show ∀ ne ∈ (setNodeObj t n _).nodes, _
    unfold setNodeObj overNode
    intro ne hne
    simp only [List.mem_map] at hne
    obtain ⟨x, hx, hfx⟩ := hne
    by_cases hxx : x.name = n
    · have hx0 : x = ne0 :=
        List.inj_on_of_nodup_map hnd hx (findNode_mem hf) (hxx.trans (findNode_name hf).symm)
      rw [if_pos hxx] at hfx
      rw [← hfx]
      show NodeWF (nodeAddInterface ne0.nodeobj eth none none).2
      exact nodeWF_nodeAdd ne0.nodeobj eth (hx0 ▸ h x hx)
    · rw [if_neg hxx] at hfx
      rw [← hfx]
      exact h x hx

theorem allIfMacs_nodes_eq {t t' : Topology} (h : t'.nodes = t.nodes) :
    allIfMacs t' = allIfMacs t := by
  unfold allIfMacs
  rw [h]

theorem flatMacs_upd (n : String) (no' : NodeObj) (m : String) :
    ∀ (ns : List NodeEntry), (ns.map (fun x => x.name)).Nodup →
      ∀ ne, ns.find? (fun x => x.name == n) = some ne →
      macsOfNO no' = macsOfNO ne.nodeobj ++ [m] →
      ((ns.map (fun x => if x.name = n then { x with nodeobj := no' } else x)).flatMap
        macsOf).Perm (m :: ns.flatMap macsOf) := by
  intro ns
  induction ns with
  | nil =>
    intro _ ne h
    cases h
  | cons hd rest ih =>
    intro hnd ne hfind hmac
    by_cases hh : hd.name = n
    · have hfind' : List.find? (fun x => x.name == n) (hd :: rest) = some hd :=
        List.find?_cons_of_pos rest (by simp [hh])
      rw [hfind'] at hfind
      have hne : hd = ne := Option.some.inj hfind
      subst hne
      have hrest : ∀ x ∈ rest, x.name ≠ n := by
        intro x hx heq
        rw [List.map_cons, List.nodup_cons] at hnd
        exact hnd.1 (by
          rw [hh]
          exact heq ▸ List.mem_map_of_mem (fun y => y.name) hx)
      have hmap : rest.map (fun x => if x.name = n then { x with nodeobj := no' } else x)
          = rest := by
        have : rest.map (fun x => if x.name = n then { x with nodeobj := no' } else x)
            = rest.map id := List.map_congr_left (fun x hx => by
          rw [if_neg (hrest x hx)]; rfl)
        rw [this, List.map_id]
      simp only [List.map_cons, if_pos hh, hmap, List.flatMap_cons]
      have hml : macsOf { hd with nodeobj := no' } = macsOfNO hd.nodeobj ++ [m] := hmac
      rw [hml, List.append_assoc]
      exact List.perm_middle
    · have hfind' : List.find? (fun x => x.name == n) (hd :: rest)
          = List.find? (fun x => x.name == n) rest :=
        List.find?_cons_of_neg rest (by simp [hh])
      rw [hfind'] at hfind
      rw [List.map_cons, List.nodup_cons] at hnd
      have ihh := ih hnd.2 ne hfind hmac
      simp only [List.map_cons, if_neg hh, List.flatMap_cons]
      exact (List.Perm.append_left (macsOf hd) ihh).trans List.perm_middle

theorem allIfMacs_topoAdd (t : Topology) (n : String) (eth : Option String)
    (hnd : (nodeNames t).Nodup) (ne : NodeEntry) (hf : findNode t n = some ne)
    (hwf : NodeWF ne.nodeobj) :
    (allIfMacs (topoAddInterface t n eth).2).Perm
      ((eth.getD "00:00:00:00:00:00") :: allIfMacs t) := by
  have heq : (topoAddInterface t n eth).2
      = setNodeObj t n (nodeAddInterface ne.nodeobj eth none none).2 := by
    unfold topoAddInterface
    rw [hf]
  rw [heq]
  show ((t.nodes.map _).flatMap macsOf).Perm _
  exact flatMacs_upd n (nodeAddInterface ne.nodeobj eth none none).2
    (eth.getD "00:00:00:00:00:00") t.nodes hnd ne hf (macsOfNO_nodeAdd ne.nodeobj eth hwf)

theorem topoAddInterface_ifnum (t : Topology) (n : String) (eth : Option String) :
    (topoAddInterface t n eth).2.ifnum = t.ifnum := by
  unfold topoAddInterface
  cases findNode t n <;> rfl

theorem topoAddInterface_auto (t : Topology) (n : String) (eth : Option String) :
    (topoAddInterface t n eth).2.auto_macs = t.auto_macs := by
  unfold topoAddInterface
  cases findNode t n <;> rfl

theorem ensureEdge_ifnum (t : Topology) (n1 n2 : String) :
    (ensureEdge t n1 n2).ifnum = t.ifnum := by
  unfold ensureEdge
  cases edgeBetween t n1 n2 <;> rfl

theorem ensureEdge_auto (t : Topology) (n1 n2 : String) :
    (ensureEdge t n1 n2).auto_macs = t.auto_macs := by
  unfold ensureEdge
  cases edgeBetween t n1 n2 <;> rfl

theorem addLinkCore_ifnum (t : Topology) (n1 n2 : String) (m1 m2 : Option String)
    (c d : String) : (addLinkCore t n1 n2 m1 m2 c d).ifnum = t.ifnum := by
  rw [addLinkCore_eq]
  show (ensureEdge _ n1 n2).ifnum = _
  rw [ensureEdge_ifnum, topoAddInterface_ifnum, topoAddInterface_ifnum]

theorem addLinkCore_auto (t : Topology) (n1 n2 : String) (m1 m2 : Option String)
    (c d : String) : (addLinkCore t n1 n2 m1 m2 c d).auto_macs = t.auto_macs := by
  rw [addLinkCore_eq]
  show (ensureEdge _ n1 n2).auto_macs = _
  rw [ensureEdge_auto, topoAddInterface_auto, topoAddInterface_auto]

theorem addLinkCore_nodeNames (t : Topology) (n1 n2 : String) (m1 m2 : Option String)
    (c d : String) : nodeNames (addLinkCore t n1 n2 m1 m2 c d) = nodeNames t := by
  rw [addLinkCore_eq]
  show nodeNames (ensureEdge _ n1 n2) = _
  have h1 : nodeNames (ensureEdge (topoAddInterface (topoAddInterface t n1 m1).2 n2 m2).2
      n1 n2) = nodeNames (topoAddInterface (topoAddInterface t n1 m1).2 n2 m2).2 := by
    unfold nodeNames
    rw [ensureEdge_nodes]
  rw [h1, topoAddInterface_nodeNames, topoAddInterface_nodeNames]

theorem addLinkCore_macs (t : Topology) (n1 n2 : String) (m1 m2 : Option String)
    (c d : String) (hnd : (nodeNames t).Nodup) (hwfall : ∀ ne ∈ t.nodes, NodeWF ne.nodeobj)
    (h1 : n1 ∈ nodeNames t) (h2 : n2 ∈ nodeNames t) :
    (allIfMacs (addLinkCore t n1 n2 m1 m2 c d)).Perm
      (allIfMacs t ++ [m1.getD "00:00:00:00:00:00", m2.getD "00:00:00:00:00:00"]) ∧
    (∀ ne ∈ (addLinkCore t n1 n2 m1 m2 c d).nodes, NodeWF ne.nodeobj) := by
  rw [addLinkCore_eq]
  obtain ⟨ne1, hf1⟩ := Option.isSome_iff_exists.mp (findNode_isSome_of_mem h1)
  have hw1 : NodeWF ne1.nodeobj := hwfall ne1 (findNode_mem hf1)
  have hp1 : (allIfMacs (topoAddInterface t n1 m1).2).Perm
      ((m1.getD "00:00:00:00:00:00") :: allIfMacs t) :=
    allIfMacs_topoAdd t n1 m1 hnd ne1 hf1 hw1
  have hnd2 : (nodeNames (topoAddInterface t n1 m1).2).Nodup := by
    rw [topoAddInterface_nodeNames]
    exact hnd
  have hwfall2 := nodeWF_all_topoAdd t n1 m1 hnd hwfall
  have h2' : n2 ∈ nodeNames (topoAddInterface t n1 m1).2 := by
    rw [topoAddInterface_nodeNames]
    exact h2
  obtain ⟨ne2, hf2⟩ := Option.isSome_iff_exists.mp (findNode_isSome_of_mem h2')
  have hw2 : NodeWF ne2.nodeobj := hwfall2 ne2 (findNode_mem hf2)
  have hp2 : (allIfMacs (topoAddInterface (topoAddInterface t n1 m1).2 n2 m2).2).Perm
      ((m2.getD "00:00:00:00:00:00") :: allIfMacs (topoAddInterface t n1 m1).2) :=
    allIfMacs_topoAdd _ n2 m2 hnd2 ne2 hf2 hw2
  have hwfall3 := nodeWF_all_topoAdd _ n2 m2 hnd2 hwfall2
  have hset : allIfMacs (setEdgeData
      (ensureEdge (topoAddInterface (topoAddInterface t n1 m1).2 n2 m2).2 n1 n2) n1 n2
      (humanize_capacity (unhumanize_capacity c) ++ " " ++ humanize_delay (unhumanize_delay d))
      (unhumanize_capacity c) (unhumanize_delay d)
      (topoAddInterface t n1 m1).1
      (topoAddInterface (topoAddInterface t n1 m1).2 n2 m2).1)
      = allIfMacs (topoAddInterface (topoAddInterface t n1 m1).2 n2 m2).2 := by
    apply allIfMacs_nodes_eq
    rw [setEdgeData_nodes, ensureEdge_nodes]
  constructor
  · rw [hset]
    refine (hp2.trans (List.Perm.cons _ hp1)).trans ?_
    have hx : (allIfMacs t ++ [m1.getD "00:00:00:00:00:00", m2.getD "00:00:00:00:00:00"]).Perm
        ((m1.getD "00:00:00:00:00:00") :: (allIfMacs t ++ [m2.getD "00:00:00:00:00:00"])) :=
      List.perm_middle
    have hy : (allIfMacs t ++ [m2.getD "00:00:00:00:00:00"]).Perm
        ((m2.getD "00:00:00:00:00:00") :: allIfMacs t) :=
      List.perm_append_singleton _ _
    refine .symm (hx.trans ((List.Perm.cons _ hy).trans ?_))
    exact List.Perm.swap _ _ _
  · intro ne hne
    have hne' : ne ∈ (topoAddInterface (topoAddInterface t n1 m1).2 n2 m2).2.nodes := by
      have hnn : (setEdgeData
          (ensureEdge (topoAddInterface (topoAddInterface t n1 m1).2 n2 m2).2 n1 n2) n1 n2
          (humanize_capacity (unhumanize_capacity c) ++ " " ++
            humanize_delay (unhumanize_delay d))
          (unhumanize_capacity c) (unhumanize_delay d)
          (topoAddInterface t n1 m1).1
          (topoAddInterface (topoAddInterface t n1 m1).2 n2 m2).1).nodes
          = (topoAddInterface (topoAddInterface t n1 m1).2 n2 m2).2.nodes := by
        rw [setEdgeData_nodes, ensureEdge_nodes]
      rw [← hnn]
      exact hne
    exact hwfall3 ne hne'

theorem addLink_ok_names (t : Topology) (n1 n2 c d : String)
    (hok : (addLink t n1 n2 c d).1 = .ok ()) :
    n1 ∈ nodeNames t ∧ n2 ∈ nodeNames t := by
  by_cases h1 : n1 ∈ nodeNames t
  · by_cases h2 : n2 ∈ nodeNames t
    · exact ⟨h1, h2⟩
    · unfold addLink at hok
      rw [if_neg (not_not_intro h1), if_pos h2] at hok
      exact Except.noConfusion hok
  · unfold addLink at hok
    rw [if_pos h1] at hok
    exact Except.noConfusion hok

theorem addLink_eq_auto (t : Topology) (n1 n2 c d : String)
    (h1 : n1 ∈ nodeNames t) (h2 : n2 ∈ nodeNames t) (ha : t.auto_macs = true) :
    (addLink t n1 n2 c d).2 = addLinkCore { t with ifnum := t.ifnum + 2 } n1 n2
      (some (macFormat t.ifnum)) (some (macFormat (t.ifnum + 1))) c d := by
  unfold addLink
  rw [if_neg (not_not_intro h1), if_neg (not_not_intro h2), if_pos ha]

theorem addLink_eq_noauto (t : Topology) (n1 n2 c d : String)
    (h1 : n1 ∈ nodeNames t) (h2 : n2 ∈ nodeNames t) (ha : t.auto_macs = false) :
    (addLink t n1 n2 c d).2 = addLinkCore t n1 n2 none none c d := by
  unfold addLink
  rw [if_neg (not_not_intro h1), if_neg (not_not_intro h2),
    if_neg (by rw [ha]; exact Bool.false_ne_true)]

theorem addLink_macs_auto (t : Topology) (n1 n2 c d : String)
    (hinv : MacInv t) (hauto : t.auto_macs = true)
    (hok : (addLink t n1 n2 c d).1 = .ok ()) :
    MacInv (addLink t n1 n2 c d).2 ∧
    (addLink t n1 n2 c d).2.ifnum = t.ifnum + 2 ∧
    (addLink t n1 n2 c d).2.auto_macs = true ∧
    (allIfMacs (addLink t n1 n2 c d).2).Perm
      (allIfMacs t ++ [macFormat t.ifnum, macFormat (t.ifnum + 1)]) := by
  obtain ⟨h1, h2⟩ := addLink_ok_names t n1 n2 c d hok
  obtain ⟨hA, hB, hC, hD⟩ := hinv
  have heq := addLink_eq_auto t n1 n2 c d h1 h2 hauto
  have hcore := addLinkCore_macs { t with ifnum := t.ifnum + 2 } n1 n2
    (some (macFormat t.ifnum)) (some (macFormat (t.ifnum + 1))) c d hA hD h1 h2
  have hnodup : (allIfMacs t ++ [macFormat t.ifnum, macFormat (t.ifnum + 1)]).Nodup := by
    rw [List.nodup_append]
    refine ⟨hB, ?_, ?_⟩
    · refine List.nodup_cons.mpr ⟨?_, List.nodup_cons.mpr ⟨List.not_mem_nil _, List.nodup_nil⟩⟩
      intro hmem
      rcases List.mem_cons.mp hmem with hcon | hcon
      · have := macFormat_inj hcon
        omega
      · simp at hcon
    · intro x hx hx2
      obtain ⟨m, hm, rfl⟩ := hC x hx
      rw [List.mem_range] at hm
      rcases List.mem_cons.mp hx2 with hcon | hcon
      · have := macFormat_inj hcon
        omega
      · rcases List.mem_cons.mp hcon with hcon2 | hcon2
        · have := macFormat_inj hcon2
          omega
        · simp at hcon2
  have hifn : (addLink t n1 n2 c d).2.ifnum = t.ifnum + 2 := by
    rw [heq, addLinkCore_ifnum]
  refine ⟨⟨?_, ?_, ?_, ?_⟩, hifn, ?_, ?_⟩
  · rw [heq, addLinkCore_nodeNames]
    exact hA
  · rw [heq]
    exact hcore.1.symm.nodup hnodup
  · intro s hs
    rw [heq] at hs
    have hs2 := hcore.1.mem_iff.mp hs
    rw [hifn]
    rw [List.mem_append] at hs2
    rcases hs2 with hs2 | hs2
    · obtain ⟨m, hm, hmeq⟩ := hC s hs2
      rw [List.mem_range] at hm
      exact ⟨m, List.mem_range.mpr (by omega), hmeq⟩
    · rcases List.mem_cons.mp hs2 with h | h
      · exact ⟨t.ifnum, List.mem_range.mpr (by omega), h⟩
      · rcases List.mem_cons.mp h with h' | h'
        · exact ⟨t.ifnum + 1, List.mem_range.mpr (by omega), h'⟩
        · simp at h'
  · rw [heq]
    exact hcore.2
  · rw [heq, addLinkCore_auto]
    exact hauto
  · rw [heq]
    exact hcore.1

theorem addLink_macs_noauto (t : Topology) (n1 n2 c d : String)
    (hnd : (nodeNames t).Nodup) (hwf : ∀ ne ∈ t.nodes, NodeWF ne.nodeobj)
    (hauto : t.auto_macs = false) (hok : (addLink t n1 n2 c d).1 = .ok ()) :
    (allIfMacs (addLink t n1 n2 c d).2).Perm
      (allIfMacs t ++ ["00:00:00:00:00:00", "00:00:00:00:00:00"]) := by
  obtain ⟨h1, h2⟩ := addLink_ok_names t n1 n2 c d hok
  rw [addLink_eq_noauto t n1 n2 c d h1 h2 hauto]
  exact (addLinkCore_macs t n1 n2 none none c d hnd hwf h1 h2).1

theorem runLinks_macs (reqs : List LinkReq) : ∀ t : Topology, MacInv t →
    t.auto_macs = true → runLinksOk t reqs →
    MacInv (runLinks t reqs) ∧
    (allIfMacs (runLinks t reqs)).Perm
      (allIfMacs t ++ (List.range' t.ifnum (2 * reqs.length)).map macFormat) := by
  induction reqs with
  | nil =>
    intro t hinv _ _
    refine ⟨hinv, ?_⟩
    simp [runLinks]
  | cons r rs ih =>
    intro t hinv hauto hok
    replace hok : (addLink t r.n1 r.n2 r.cap r.dly).1 = .ok () ∧
        runLinksOk (addLink t r.n1 r.n2 r.cap r.dly).2 rs := hok
    obtain ⟨hok1, hokr⟩ := hok
    obtain ⟨hinv1, hif, hau, hperm⟩ := addLink_macs_auto t r.n1 r.n2 r.cap r.dly hinv hauto hok1
    obtain ⟨hinvf, hpermf⟩ := ih _ hinv1 hau hokr
    have hgoal : (allIfMacs (runLinks (addLink t r.n1 r.n2 r.cap r.dly).2 rs)).Perm
        (allIfMacs t ++ (List.range' t.ifnum (2 * rs.length + 2)).map macFormat) := by
      rw [hif] at hpermf
      refine hpermf.trans ?_
      refine (hperm.append_right _).trans ?_
      have hsplit : (allIfMacs t ++ [macFormat t.ifnum, macFormat (t.ifnum + 1)]) ++
          (List.range' (t.ifnum + 2) (2 * rs.length)).map macFormat
          = allIfMacs t ++ (List.range' t.ifnum (2 * rs.length + 2)).map macFormat := by
        rw [List.append_assoc]
        congr 1
      rw [hsplit]
    exact ⟨hinvf, hgoal⟩

/-- C5: with auto MAC assignment enabled, any run of N successful addLink
calls from a topology satisfying the MAC invariant adds to the stored MACs
exactly the images under macFormat (twelve hex digits split into
colon-separated byte groups) of the 2N consecutive counter values starting
at the current counter, so the MACs created are 2N pairwise distinct
strings and all stored MACs stay pairwise distinct; with auto MAC
assignment disabled, a successful addLink adds exactly two default
all-zero MACs. -/
theorem C5_auto_macs :
    (∀ (t : Topology) (reqs : List LinkReq), MacInv t → t.auto_macs = true →
      runLinksOk t reqs →
      (allIfMacs (runLinks t reqs)).Perm
        (allIfMacs t ++ (List.range' t.ifnum (2 * reqs.length)).map macFormat) ∧
      (allIfMacs (runLinks t reqs)).Nodup ∧
      (allIfMacs (runLinks t reqs)).length = (allIfMacs t).length + 2 * reqs.length) ∧
    (∀ (t : Topology) (n1 n2 c d : String), (nodeNames t).Nodup →
      (∀ ne ∈ t.nodes, NodeWF ne.nodeobj) → t.auto_macs = false →
      (addLink t n1 n2 c d).1 = .ok () →
      (allIfMacs (addLink t n1 n2 c d).2).Perm
        (allIfMacs t ++ ["00:00:00:00:00:00", "00:00:00:00:00:00"])) := by
  constructor
  · intro t reqs hinv hauto hok
    obtain ⟨hinvf, hperm⟩ := runLinks_macs reqs t hinv hauto hok
    refine ⟨hperm, hinvf.2.1, ?_⟩
    have hlen := hperm.length_eq
    rw [List.length_append, List.length_map, List.length_range'] at hlen
    exact hlen
  · intro t n1 n2 c d hnd hwf hauto hok
    exact addLink_macs_noauto t n1 n2 c d hnd hwf hauto hok

set_option maxRecDepth 100000 in
/-- C5 witness: the auto clause applied at the concrete topology tEx with
one further link request, and the non-auto clause applied at the concrete
topology tNA. -/
theorem C5_witness :
    (MacInv tEx ∧ tEx.auto_macs = true ∧
      runLinksOk tEx [⟨"h0", "s0", "1gbps", "5ms"⟩] ∧
      (allIfMacs (runLinks tEx [⟨"h0", "s0", "1gbps", "5ms"⟩])).Nodup ∧
      (allIfMacs (runLinks tEx [⟨"h0", "s0", "1gbps", "5ms"⟩])).length
        = (allIfMacs tEx).length + 2) ∧
    ((nodeNames tNA).Nodup ∧ (∀ ne ∈ tNA.nodes, NodeWF ne.nodeobj) ∧
      tNA.auto_macs = false ∧
      (addLink tNA "h0" "s0" "100mbps" "10ms").1 = .ok () ∧
      (allIfMacs (addLink tNA "h0" "s0" "100mbps" "10ms").2).Perm
        (allIfMacs tNA ++ ["00:00:00:00:00:00", "00:00:00:00:00:00"])) := by
  have hinv : MacInv tEx := by decide
  have hauto : tEx.auto_macs = true := by decide
  have hok : runLinksOk tEx [⟨"h0", "s0", "1gbps", "5ms"⟩] := by decide
  have hmain := C5_auto_macs.1 tEx [⟨"h0", "s0", "1gbps", "5ms"⟩] hinv hauto hok
  have hnd : (nodeNames tNA).Nodup := by decide
  have hwf : ∀ ne ∈ tNA.nodes, NodeWF ne.nodeobj := by decide
  have hna : tNA.auto_macs = false := by decide
  have hok2 : (addLink tNA "h0" "s0" "100mbps" "10ms").1 = .ok () := by decide
  have h2 := C5_auto_macs.2 tNA "h0" "s0" "100mbps" "10ms" hnd hwf hna hok2
  exact ⟨⟨hinv, hauto, hok, hmain.2.1, hmain.2.2⟩, ⟨hnd, hwf, hna, hok2, h2⟩⟩

end Topo

